import Mathlib

/-!
Verification of the stone-drawing-generator core against its specification.

The development shallowly embeds the TypeScript sources:
* `src/unnamed/part_005` — fraction-string ⇄ decimal conversion
  (`fractionToDecimal`, `decimalToFraction`, `isValidFractionString`, `findGCD`);
* `src/src/lib/drawing-utils.ts` and `drawing-utils.optimized.ts` — the
  scale-to-fit layout of `drawStoneMockup` and the polished-edge stroking;
* `src/unnamed/part_006` — the PDF export pipeline
  (`exportMultipleToPDF`, `processCanvasesInBatches`, `addPieceToPDF`,
  `createSinglePiecePDF`).

JavaScript numbers are embedded as exact rationals (`ℚ`), strings as Lean
`String`/`List Char`, the jsPDF document as a trace of drawing operations, and
the canvas 2D context as a small state machine recording stroke events.
-/

/-! ## FractionMath (src/unnamed/part_005) -/

/-- Test for the regex class `\d`, i.e. the ASCII digits `0`–`9`. -/
def isDigitCh (c : Char) : Bool := 48 ≤ c.toNat && c.toNat ≤ 57

/-- Whitespace as removed by `fractionStr.trim().replace(/\s+/g, '')` (the ASCII
part of the regex class `\s`; the conversion functions only ever produce or
consume ASCII). -/
def isSpaceCh (c : Char) : Bool :=
  c = ' ' || c = '\t' || c = '\n' || c = '\r' || c = '\x0b' || c = '\x0c'

/-- Embedding of `fractionStr.trim().replace(/\s+/g, '')`: together the two
calls delete every whitespace character of the string. -/
def cleanChars (s : String) : List Char := s.data.filter (fun c => !(isSpaceCh c))

/-- Numeric value of an all-digit character list: the value `parseInt(s, 10)`
(equivalently `Number(s)`) returns on an all-digit string. -/
def digitsVal (cs : List Char) : ℕ := cs.foldl (fun a c => 10 * a + (c.toNat - 48)) 0

/-- Split a character list at the first occurrence of `sep`; `none` when `sep`
does not occur.  Models the `[x, y] = str.split(sep)` destructuring used by the
source once a regex has certified that `sep` occurs exactly once. -/
def splitOnce (sep : Char) : List Char → Option (List Char × List Char)
  | [] => none
  | c :: cs =>
    if c = sep then some ([], cs)
    else
      match splitOnce sep cs with
      | some (a, b) => some (c :: a, b)
      | none => none

/-- Embedding of the regex test `^\d+\/\d+$` plus the subsequent
`split('/')`: succeeds exactly when the list is `digits ++ '/' :: digits`
with both digit groups nonempty, returning the two groups. -/
def fracShape (cs : List Char) : Option (List Char × List Char) :=
  match splitOnce '/' cs with
  | some (a, b) =>
    if !a.isEmpty && a.all isDigitCh && !b.isEmpty && b.all isDigitCh then
      some (a, b)
    else none
  | none => none

/-- Embedding of the regex test `^\d+-\d+\/\d+$` plus the subsequent
`split('-')` and `split('/')`: succeeds exactly on
`digits ++ '-' :: digits ++ '/' :: digits`, returning the three groups. -/
def mixedShape (cs : List Char) : Option (List Char × List Char × List Char) :=
  match splitOnce '-' cs with
  | some (w, rest) =>
    if !w.isEmpty && w.all isDigitCh then
      match fracShape rest with
      | some (n, d) => some (w, n, d)
      | none => none
    else none
  | none => none

/-- Branch cascade of `fractionToDecimal` after whitespace removal: whole
number, then simple fraction (null on zero denominator), then mixed number
(null on zero denominator), else null. -/
def parseFractionChars (cs : List Char) : Option ℚ :=
  if cs.isEmpty then none
  else if cs.all isDigitCh then some ((digitsVal cs : ℚ))
  else
    match fracShape cs with
    | some (n, d) =>
      if digitsVal d = 0 then none else some ((digitsVal n : ℚ) / (digitsVal d : ℚ))
    | none =>
      match mixedShape cs with
      | some (w, n, d) =>
        if digitsVal d = 0 then none
        else some ((digitsVal w : ℚ) + (digitsVal n : ℚ) / (digitsVal d : ℚ))
      | none => none

/-- Embedding of `fractionToDecimal(fractionStr)` (part_005 lines 14–42):
returns the decimal value of a whole-number, simple-fraction or mixed-number
string, and `none` (JS `null`) on any other shape or a zero denominator. -/
def fractionToDecimal (s : String) : Option ℚ := parseFractionChars (cleanChars s)

/-- Branch cascade of `isValidFractionString` after whitespace removal;
structurally parallel to `parseFractionChars`. -/
def validFractionChars (cs : List Char) : Bool :=
  if cs.isEmpty then false
  else if cs.all isDigitCh then true
  else
    match fracShape cs with
    | some (_, d) => !(digitsVal d = 0)
    | none =>
      match mixedShape cs with
      | some (_, _, d) => !(digitsVal d = 0)
      | none => false

/-- Embedding of `isValidFractionString(fractionStr)` (part_005 lines 126–152). -/
def isValidFractionString (s : String) : Bool := validFractionChars (cleanChars s)

/-- Helper for the acceptance-set equivalence: on every character list the
validity cascade agrees with definedness of the parsing cascade. -/
theorem validFractionChars_eq_isSome (cs : List Char) :
    validFractionChars cs = (parseFractionChars cs).isSome := by
  unfold validFractionChars parseFractionChars
  by_cases h1 : cs.isEmpty
  · rw [if_pos h1, if_pos h1]; rfl
  rw [if_neg h1, if_neg h1]
  by_cases h2 : cs.all isDigitCh
  · rw [if_pos h2, if_pos h2]; rfl
  rw [if_neg h2, if_neg h2]
  cases hf : fracShape cs with
  | some nd =>
    obtain ⟨n, d⟩ := nd
    by_cases hd : digitsVal d = 0
    · simp [hd]
    · simp [hd]
  | none =>
    cases hm : mixedShape cs with
    | some wnd =>
      obtain ⟨w, n, d⟩ := wnd
      by_cases hd : digitsVal d = 0
      · simp [hd]
      · simp [hd]
    | none => rfl

/-- C7: for every string `s`, `isValidFractionString s` is true exactly when
`fractionToDecimal s` parses to a number: the two acceptance sets coincide. -/
theorem isValidFractionString_iff_parses (s : String) :
    isValidFractionString s = (fractionToDecimal s).isSome :=
  validFractionChars_eq_isSome (cleanChars s)

/-- Embedding of `Math.round(x)`: rounds to the nearest integer, ties toward
positive infinity, i.e. `⌊x + 1/2⌋`. -/
def jsRound (q : ℚ) : ℤ := ⌊q + 1/2⌋

/-- Embedding of `findGCD(a, b)` (part_005 lines 104–120): Euclid's algorithm
by repeated remainder.  The source takes absolute values first; it is only
called on the nonnegative loop results, embedded here as naturals. -/
def findGCD (a b : ℕ) : ℕ :=
  if b = 0 then a else findGCD b (a % b)
termination_by b
decreasing_by exact Nat.mod_lt a (Nat.pos_of_ne_zero (by assumption))

/-- Digit character for a value below ten (`'0'` … `'9'`). -/
def digitCh (n : ℕ) : Char := Char.ofNat (48 + n)

/-- Decimal digit values of a natural, least significant first (empty for 0). -/
def natDigitsRev (n : ℕ) : List ℕ :=
  if n = 0 then [] else n % 10 :: natDigitsRev (n / 10)
termination_by n
decreasing_by exact Nat.div_lt_self (Nat.pos_of_ne_zero (by assumption)) (by norm_num)

/-- Rendering of a nonnegative integer by a JS template literal (`${n}`):
its usual decimal notation. -/
def natReprChars (n : ℕ) : List Char :=
  if n = 0 then ['0'] else ((natDigitsRev n).reverse.map digitCh)

/-- String form of `natReprChars`. -/
def natRepr (n : ℕ) : String := ⟨natReprChars n⟩

/-- State of the best-approximation scan of `decimalToFraction`:
`bestNumerator`, `bestDenominator`, `bestError`. -/
structure BestFrac where
  num : ℕ
  den : ℕ
  err : ℚ
deriving DecidableEq

/-- Scan loop of `decimalToFraction` (part_005 lines 71–84) over the candidate
denominators: for each denominator the nearest numerator is
`Math.round(fractionalPart * denominator)`; the state is updated on a strictly
smaller error and the scan stops early when the error drops below `0.0000001`.
The loop only runs with `0 ≤ frac`, so `Math.round` is embedded through
`Int.toNat` without loss. -/
def bestFracLoop (frac : ℚ) : List ℕ → BestFrac → BestFrac
  | [], best => best
  | denominator :: rest, best =>
    let numerator : ℕ := (jsRound (frac * denominator)).toNat
    let error : ℚ := |frac - (numerator : ℚ) / (denominator : ℚ)|
    if error < best.err then
      if error < 1 / 10000000 then ⟨numerator, denominator, error⟩
      else bestFracLoop frac rest ⟨numerator, denominator, error⟩
    else bestFracLoop frac rest best

/-- Embedding of `decimalToFraction(decimal, maxDenominator)` (part_005 lines
52–98).  The `isNaN`/`isFinite` guard of the source cannot fire on `ℚ` and is
dropped; sign handling, whole/fractional split, the denominator scan 1 ..
`maxDenominator`, gcd reduction and formatting follow the source line by
line. -/
def decimalToFraction (decimal : ℚ) (maxDenominator : ℕ) : String :=
  let sign : String := if decimal < 0 then "-" else ""
  let dec : ℚ := |decimal|
  let wholePart : ℕ := (⌊dec⌋).toNat
  let fractionalPart : ℚ := dec - (wholePart : ℚ)
  if fractionalPart = 0 then sign ++ natRepr wholePart
  else
    let best := bestFracLoop fractionalPart (List.range' 1 maxDenominator) ⟨0, 1, fractionalPart⟩
    let g := findGCD best.num best.den
    let bestNumerator := best.num / g
    let bestDenominator := best.den / g
    if wholePart = 0 then
      sign ++ natRepr bestNumerator ++ "/" ++ natRepr bestDenominator
    else
      sign ++ natRepr wholePart ++ "-" ++ natRepr bestNumerator ++ "/" ++ natRepr bestDenominator

/-! ### Correctness lemmas for the fraction round trip (C1) -/

/-- Value of a little-endian decimal digit list. -/
def valLE : List ℕ → ℕ
  | [] => 0
  | a :: l => a + 10 * valLE l

theorem findGCD_eq_gcd (a b : ℕ) : findGCD a b = Nat.gcd a b := by
  induction b using Nat.strong_induction_on generalizing a with
  | _ b ih =>
    rw [findGCD]
    by_cases hb : b = 0
    · simp [hb]
    · rw [if_neg hb, ih (a % b) (Nat.mod_lt a (Nat.pos_of_ne_zero hb)) b]
      rw [Nat.gcd_comm b (a % b), ← Nat.gcd_rec, Nat.gcd_comm]

theorem valLE_natDigitsRev (n : ℕ) : valLE (natDigitsRev n) = n := by
  induction n using Nat.strong_induction_on with
  | _ n ih =>
    rw [natDigitsRev]
    by_cases h : n = 0
    · simp [h, valLE]
    · rw [if_neg h]
      rw [valLE, ih (n / 10) (Nat.div_lt_self (Nat.pos_of_ne_zero h) (by norm_num))]
      omega

theorem natDigitsRev_lt_ten (n : ℕ) : ∀ x ∈ natDigitsRev n, x < 10 := by
  induction n using Nat.strong_induction_on with
  | _ n ih =>
    rw [natDigitsRev]
    by_cases h : n = 0
    · simp [h]
    · rw [if_neg h]
      intro x hx
      rcases List.mem_cons.mp hx with hx | hx
      · subst hx; exact Nat.mod_lt n (by norm_num)
      · exact ih (n / 10) (Nat.div_lt_self (Nat.pos_of_ne_zero h) (by norm_num)) x hx

theorem digitCh_isDigit : ∀ x < 10, isDigitCh (digitCh x) = true := by decide

theorem digitCh_toNat : ∀ x < 10, (digitCh x).toNat = 48 + x := by decide

theorem digitsVal_append_digit (l : List Char) (c : Char) :
    digitsVal (l ++ [c]) = 10 * digitsVal l + (c.toNat - 48) := by
  simp [digitsVal, List.foldl_append]

theorem digitsVal_reverse_map (ds : List ℕ) (h : ∀ x ∈ ds, x < 10) :
    digitsVal (ds.reverse.map digitCh) = valLE ds := by
  induction ds with
  | nil => rfl
  | cons a t ih =>
    rw [List.reverse_cons, List.map_append, List.map_singleton, digitsVal_append_digit]
    rw [ih (fun x hx => h x (List.mem_cons_of_mem a hx))]
    rw [digitCh_toNat a (h a (List.mem_cons_self a t))]
    rw [valLE]
    omega

theorem natReprChars_ne_nil (n : ℕ) : natReprChars n ≠ [] := by
  rw [natReprChars]
  by_cases h : n = 0
  · simp [h]
  · rw [if_neg h, natDigitsRev, if_neg h]
    simp

theorem natReprChars_all_digit (n : ℕ) : ∀ c ∈ natReprChars n, isDigitCh c = true := by
  rw [natReprChars]
  by_cases h : n = 0
  · simp [h]; decide
  · rw [if_neg h]
    intro c hc
    rcases List.mem_map.mp hc with ⟨x, hx, rfl⟩
    exact digitCh_isDigit x (natDigitsRev_lt_ten n x (List.mem_reverse.mp hx))

theorem digitsVal_natReprChars (n : ℕ) : digitsVal (natReprChars n) = n := by
  rw [natReprChars]
  by_cases h : n = 0
  · simp [h]; decide
  · rw [if_neg h, digitsVal_reverse_map _ (natDigitsRev_lt_ten n), valLE_natDigitsRev]

theorem isDigitCh_not_space (c : Char) (h : isDigitCh c = true) : isSpaceCh c = false := by
  cases hs : isSpaceCh c
  · rfl
  · exfalso
    simp only [isSpaceCh, Bool.or_eq_true, decide_eq_true_eq] at hs
    rcases hs with ((((h1 | h1) | h1) | h1) | h1) | h1 <;> subst h1 <;> exact absurd h (by decide)

theorem isDigitCh_ne_slash (c : Char) (h : isDigitCh c = true) : c ≠ '/' := by
  rintro rfl; exact absurd h (by decide)

theorem isDigitCh_ne_dash (c : Char) (h : isDigitCh c = true) : c ≠ '-' := by
  rintro rfl; exact absurd h (by decide)

theorem splitOnce_append (sep : Char) (a b : List Char) (ha : sep ∉ a) :
    splitOnce sep (a ++ sep :: b) = some (a, b) := by
  induction a with
  | nil => simp [splitOnce]
  | cons c t ih =>
    have hc : ¬(c = sep) := fun h => ha (h ▸ List.mem_cons_self c t)
    rw [List.cons_append, splitOnce, if_neg hc, ih (fun h => ha (List.mem_cons_of_mem c h))]

theorem filter_nospace (l : List Char) (h : ∀ c ∈ l, isSpaceCh c = false) :
    l.filter (fun c => !(isSpaceCh c)) = l :=
  List.filter_eq_self.mpr (by intro c hc; simp [h c hc])

theorem fracShape_concat (nd dd : List Char)
    (hn : nd ≠ []) (hna : ∀ c ∈ nd, isDigitCh c = true)
    (hd : dd ≠ []) (hda : ∀ c ∈ dd, isDigitCh c = true) :
    fracShape (nd ++ '/' :: dd) = some (nd, dd) := by
  have hslash : '/' ∉ nd := fun hm => isDigitCh_ne_slash _ (hna _ hm) rfl
  rw [fracShape, splitOnce_append _ _ _ hslash]
  have h1 : nd.isEmpty = false := by simpa [List.isEmpty_iff] using hn
  have h2 : dd.isEmpty = false := by simpa [List.isEmpty_iff] using hd
  simp [h1, h2, List.all_eq_true.mpr hna, List.all_eq_true.mpr hda]

theorem fracShape_mixed_none (wd nd dd : List Char)
    (hwa : ∀ c ∈ wd, isDigitCh c = true) (hna : ∀ c ∈ nd, isDigitCh c = true) :
    fracShape (wd ++ '-' :: (nd ++ '/' :: dd)) = none := by
  have hshape : wd ++ '-' :: (nd ++ '/' :: dd) = (wd ++ '-' :: nd) ++ '/' :: dd := by
    simp [List.append_assoc]
  have hslash : '/' ∉ wd ++ '-' :: nd := by
    intro hm
    rcases List.mem_append.mp hm with hm | hm
    · exact isDigitCh_ne_slash _ (hwa _ hm) rfl
    · rcases List.mem_cons.mp hm with hm | hm
      · exact absurd hm.symm (by decide)
      · exact isDigitCh_ne_slash _ (hna _ hm) rfl
  rw [hshape, fracShape, splitOnce_append _ _ _ hslash]
  have hdash : ((wd ++ '-' :: nd).all isDigitCh) = false := by
    cases hall : (wd ++ '-' :: nd).all isDigitCh
    · rfl
    · exact absurd (List.all_eq_true.mp hall '-'
        (List.mem_append.mpr (Or.inr (List.mem_cons_self _ _)))) (by decide)
  simp [hdash]

theorem mixedShape_concat (wd nd dd : List Char)
    (hw : wd ≠ []) (hwa : ∀ c ∈ wd, isDigitCh c = true)
    (hn : nd ≠ []) (hna : ∀ c ∈ nd, isDigitCh c = true)
    (hd : dd ≠ []) (hda : ∀ c ∈ dd, isDigitCh c = true) :
    mixedShape (wd ++ '-' :: (nd ++ '/' :: dd)) = some (wd, nd, dd) := by
  have hdash : '-' ∉ wd := fun hm => isDigitCh_ne_dash _ (hwa _ hm) rfl
  rw [mixedShape, splitOnce_append _ _ _ hdash]
  have h1 : wd.isEmpty = false := by simpa [List.isEmpty_iff] using hw
  simp [h1, List.all_eq_true.mpr hwa, fracShape_concat nd dd hn hna hd hda]

theorem parseFractionChars_whole (cs : List Char)
    (h1 : cs ≠ []) (h2 : ∀ c ∈ cs, isDigitCh c = true) :
    parseFractionChars cs = some ((digitsVal cs : ℚ)) := by
  rw [parseFractionChars]
  rw [if_neg (by simpa [List.isEmpty_iff] using h1), if_pos (List.all_eq_true.mpr h2)]

theorem parseFractionChars_frac (nd dd : List Char)
    (hn : nd ≠ []) (hna : ∀ c ∈ nd, isDigitCh c = true)
    (hd : dd ≠ []) (hda : ∀ c ∈ dd, isDigitCh c = true)
    (hdz : digitsVal dd ≠ 0) :
    parseFractionChars (nd ++ '/' :: dd) = some ((digitsVal nd : ℚ) / (digitsVal dd : ℚ)) := by
  rw [parseFractionChars]
  have hne : (nd ++ '/' :: dd).isEmpty = false := by
    simp [List.isEmpty_iff]
  have hnotall : ((nd ++ '/' :: dd).all isDigitCh) = false := by
    cases hall : (nd ++ '/' :: dd).all isDigitCh
    · rfl
    · exact absurd (List.all_eq_true.mp hall '/'
        (List.mem_append.mpr (Or.inr (List.mem_cons_self _ _)))) (by decide)
  rw [hne, hnotall]
  simp only [Bool.false_eq_true, if_false]
  rw [fracShape_concat nd dd hn hna hd hda]
  simp [hdz]

theorem parseFractionChars_mixed (wd nd dd : List Char)
    (hw : wd ≠ []) (hwa : ∀ c ∈ wd, isDigitCh c = true)
    (hn : nd ≠ []) (hna : ∀ c ∈ nd, isDigitCh c = true)
    (hd : dd ≠ []) (hda : ∀ c ∈ dd, isDigitCh c = true)
    (hdz : digitsVal dd ≠ 0) :
    parseFractionChars (wd ++ '-' :: (nd ++ '/' :: dd)) =
      some ((digitsVal wd : ℚ) + (digitsVal nd : ℚ) / (digitsVal dd : ℚ)) := by
  rw [parseFractionChars]
  have hne : ((wd ++ '-' :: (nd ++ '/' :: dd)).isEmpty) = false := by
    simp [List.isEmpty_iff]
  have hnotall : ((wd ++ '-' :: (nd ++ '/' :: dd)).all isDigitCh) = false := by
    cases hall : (wd ++ '-' :: (nd ++ '/' :: dd)).all isDigitCh
    · rfl
    · exact absurd (List.all_eq_true.mp hall '-'
        (List.mem_append.mpr (Or.inr (List.mem_cons_self _ _)))) (by decide)
  rw [hne, hnotall]
  simp only [Bool.false_eq_true, if_false]
  rw [fracShape_mixed_none wd nd dd hwa hna, mixedShape_concat wd nd dd hw hwa hn hna hd hda]
  simp [hdz]

theorem round_half_err (x : ℚ) : |x - ((⌊x + 1/2⌋ : ℤ) : ℚ)| ≤ 1/2 := by
  have h1 : ((⌊x + 1/2⌋ : ℤ) : ℚ) ≤ x + 1/2 := Int.floor_le _
  have h2 : x + 1/2 < ((⌊x + 1/2⌋ : ℤ) : ℚ) + 1 := Int.lt_floor_add_one _
  rw [abs_le]
  constructor <;> linarith

theorem roundedCandidate_err (f : ℚ) (hf : 0 ≤ f) (d : ℕ) (hd : d ≠ 0) :
    |f - (((jsRound (f * (d : ℚ))).toNat : ℚ)) / (d : ℚ)| ≤ 1 / (2 * (d : ℚ)) := by
  have hd0 : (0 : ℚ) < (d : ℚ) := by
    exact_mod_cast Nat.pos_of_ne_zero hd
  have hm0 : 0 ≤ jsRound (f * (d : ℚ)) := by
    rw [jsRound]
    apply Int.floor_nonneg.mpr
    positivity
  have hcast : (((jsRound (f * (d : ℚ))).toNat : ℕ) : ℚ) = ((jsRound (f * (d : ℚ)) : ℤ) : ℚ) := by
    exact_mod_cast congrArg (fun z : ℤ => (z : ℚ)) (Int.toNat_of_nonneg hm0)
  rw [hcast, jsRound]
  have key := round_half_err (f * (d : ℚ))
  have hrw : f - ((⌊f * (d : ℚ) + 1/2⌋ : ℤ) : ℚ) / (d : ℚ) =
      (f * (d : ℚ) - ((⌊f * (d : ℚ) + 1/2⌋ : ℤ) : ℚ)) / (d : ℚ) := by
    field_simp
  rw [hrw, abs_div, abs_of_pos hd0]
  rw [div_le_div_iff₀ hd0 (by positivity)]
  calc |f * (d : ℚ) - ((⌊f * (d : ℚ) + 1/2⌋ : ℤ) : ℚ)| * (2 * (d : ℚ)) ≤ (1/2) * (2 * (d : ℚ)) := by
        apply mul_le_mul_of_nonneg_right key
        positivity
    _ = 1 * (d : ℚ) := by ring

/-- Invariant of the denominator scan: the state always records the true error
of its numerator/denominator pair, the error never increases, and once the
denominator 16 has been scanned the recorded error is at most `1/32`. -/
theorem bestFracLoop_spec (f : ℚ) (hf : 0 ≤ f) :
    ∀ (L : List ℕ) (b : BestFrac), (∀ d ∈ L, d ≠ 0) → b.den ≠ 0 →
      b.err = |f - (b.num : ℚ) / (b.den : ℚ)| →
      (bestFracLoop f L b).den ≠ 0 ∧
      (bestFracLoop f L b).err =
        |f - ((bestFracLoop f L b).num : ℚ) / ((bestFracLoop f L b).den : ℚ)| ∧
      (bestFracLoop f L b).err ≤ b.err ∧
      (16 ∈ L → (bestFracLoop f L b).err ≤ 1 / 32) := by
  intro L
  induction L with
  | nil =>
    intro b _ hden herr
    refine ⟨hden, herr, le_refl _, ?_⟩
    intro h16
    exact absurd h16 (List.not_mem_nil 16)
  | cons d rest ih =>
    intro b hL hden herr
    have hd : d ≠ 0 := hL d (List.mem_cons_self d rest)
    have hrest : ∀ x ∈ rest, x ≠ 0 := fun x hx => hL x (List.mem_cons_of_mem d hx)
    have hcand : |f - (((jsRound (f * (d : ℚ))).toNat : ℚ)) / (d : ℚ)| ≤ 1 / (2 * (d : ℚ)) :=
      roundedCandidate_err f hf d hd
    rw [bestFracLoop]
    by_cases h1 : |f - (((jsRound (f * (d : ℚ))).toNat : ℚ)) / (d : ℚ)| < b.err
    · by_cases h2 : |f - (((jsRound (f * (d : ℚ))).toNat : ℚ)) / (d : ℚ)| < 1 / 10000000
      · rw [if_pos h1, if_pos h2]
        refine ⟨hd, rfl, le_of_lt h1, ?_⟩
        intro _
        show |f - (((jsRound (f * (d : ℚ))).toNat : ℚ)) / (d : ℚ)| ≤ 1 / 32
        exact le_of_lt (lt_of_lt_of_le h2 (by norm_num))
      · rw [if_pos h1, if_neg h2]
        obtain ⟨r1, r2, r3, r4⟩ := ih ⟨(jsRound (f * (d : ℚ))).toNat, d,
          |f - (((jsRound (f * (d : ℚ))).toNat : ℚ)) / (d : ℚ)|⟩ hrest hd rfl
        refine ⟨r1, r2, le_trans r3 (le_of_lt h1), ?_⟩
        intro h16
        rcases List.mem_cons.mp h16 with h16 | h16
        · have hbound : |f - (((jsRound (f * (d : ℚ))).toNat : ℚ)) / (d : ℚ)| ≤ 1 / 32 := by
            subst h16
            refine le_trans hcand ?_
            norm_num
          exact le_trans r3 hbound
        · exact r4 h16
    · rw [if_neg h1]
      obtain ⟨r1, r2, r3, r4⟩ := ih b hrest hden herr
      refine ⟨r1, r2, r3, ?_⟩
      intro h16
      rcases List.mem_cons.mp h16 with h16 | h16
      · have hbound : |f - (((jsRound (f * (d : ℚ))).toNat : ℚ)) / (d : ℚ)| ≤ 1 / 32 := by
          subst h16
          refine le_trans hcand ?_
          norm_num
        exact le_trans r3 (le_trans (not_lt.mp h1) hbound)
      · exact r4 h16

theorem div_gcd_ne_zero (n d : ℕ) (hd : d ≠ 0) : d / Nat.gcd n d ≠ 0 := by
  have hg : 0 < Nat.gcd n d := Nat.gcd_pos_of_pos_right n (Nat.pos_of_ne_zero hd)
  exact Nat.ne_of_gt (Nat.div_pos
    (Nat.le_of_dvd (Nat.pos_of_ne_zero hd) (Nat.gcd_dvd_right n d)) hg)

theorem gcd_div_cast (n d : ℕ) (hd : d ≠ 0) :
    ((n / Nat.gcd n d : ℕ) : ℚ) / ((d / Nat.gcd n d : ℕ) : ℚ) = (n : ℚ) / (d : ℚ) := by
  have hg : Nat.gcd n d ≠ 0 := fun h => hd (Nat.eq_zero_of_gcd_eq_zero_right h)
  have hgq : ((Nat.gcd n d : ℕ) : ℚ) ≠ 0 := Nat.cast_ne_zero.mpr hg
  rw [Nat.cast_div (Nat.gcd_dvd_left n d) hgq, Nat.cast_div (Nat.gcd_dvd_right n d) hgq]
  exact div_div_div_cancel_right₀ hgq _ _

theorem natReprChars_nospace (n : ℕ) : ∀ c ∈ natReprChars n, isSpaceCh c = false :=
  fun c hc => isDigitCh_not_space c (natReprChars_all_digit n c hc)

theorem cleanChars_whole_format (a : ℕ) :
    cleanChars ("" ++ natRepr a) = natReprChars a := by
  rw [cleanChars]
  have hdata : ("" ++ natRepr a).data = natReprChars a := by
    rw [String.data_append]; rfl
  rw [hdata]
  exact filter_nospace _ (natReprChars_nospace a)

theorem cleanChars_frac_format (a b : ℕ) :
    cleanChars ("" ++ natRepr a ++ "/" ++ natRepr b) =
      natReprChars a ++ '/' :: natReprChars b := by
  rw [cleanChars]
  have hdata : ("" ++ natRepr a ++ "/" ++ natRepr b).data =
      natReprChars a ++ '/' :: natReprChars b := by
    rw [String.data_append, String.data_append, String.data_append]
    show ([] ++ natReprChars a) ++ ['/'] ++ natReprChars b = _
    simp
  rw [hdata]
  apply filter_nospace
  intro c hc
  rcases List.mem_append.mp hc with h | h
  · exact natReprChars_nospace a c h
  · rcases List.mem_cons.mp h with h | h
    · rw [h]; decide
    · exact natReprChars_nospace b c h

theorem cleanChars_mixed_format (w a b : ℕ) :
    cleanChars ("" ++ natRepr w ++ "-" ++ natRepr a ++ "/" ++ natRepr b) =
      natReprChars w ++ '-' :: (natReprChars a ++ '/' :: natReprChars b) := by
  rw [cleanChars]
  have hdata : ("" ++ natRepr w ++ "-" ++ natRepr a ++ "/" ++ natRepr b).data =
      natReprChars w ++ '-' :: (natReprChars a ++ '/' :: natReprChars b) := by
    rw [String.data_append, String.data_append, String.data_append, String.data_append,
      String.data_append]
    show (((([] ++ natReprChars w) ++ ['-']) ++ natReprChars a) ++ ['/']) ++ natReprChars b = _
    simp
  rw [hdata]
  apply filter_nospace
  intro c hc
  rcases List.mem_append.mp hc with h | h
  · exact natReprChars_nospace w c h
  rcases List.mem_cons.mp h with h | h
  · rw [h]; decide
  rcases List.mem_append.mp h with h | h
  · exact natReprChars_nospace a c h
  rcases List.mem_cons.mp h with h | h
  · rw [h]; decide
  · exact natReprChars_nospace b c h

/-- C1: for every decimal `d` with `0 ≤ d < 1000`,
`fractionToDecimal (decimalToFraction d 16)` parses successfully, and the
parsed number is within `1/32 = 1/(2·16)` of `d`. -/
theorem decimalToFraction_roundtrip (d : ℚ) (h0 : 0 ≤ d) (h1 : d < 1000) :
    ∃ q : ℚ, fractionToDecimal (decimalToFraction d 16) = some q ∧ |q - d| ≤ 1 / 32 := by
  have hsign : (if d < 0 then "-" else "") = "" := if_neg (not_lt.mpr h0)
  have habs : |d| = d := abs_of_nonneg h0
  have hWcast : ((⌊d⌋.toNat : ℕ) : ℚ) = ((⌊d⌋ : ℤ) : ℚ) := by
    exact_mod_cast congrArg (fun z : ℤ => (z : ℚ))
      (Int.toNat_of_nonneg (Int.floor_nonneg.mpr h0))
  have hWle : ((⌊d⌋.toNat : ℕ) : ℚ) ≤ d := by rw [hWcast]; exact Int.floor_le d
  have hWgt : d < ((⌊d⌋.toNat : ℕ) : ℚ) + 1 := by rw [hWcast]; exact Int.lt_floor_add_one d
  have hfnn : 0 ≤ d - ((⌊d⌋.toNat : ℕ) : ℚ) := by linarith
  rw [decimalToFraction]
  simp only [habs, hsign]
  by_cases hf0 : d - ((⌊d⌋.toNat : ℕ) : ℚ) = 0
  · rw [if_pos hf0]
    refine ⟨((digitsVal (natReprChars ⌊d⌋.toNat) : ℕ) : ℚ), ?_, ?_⟩
    · rw [fractionToDecimal, cleanChars_whole_format]
      exact parseFractionChars_whole _ (natReprChars_ne_nil _) (natReprChars_all_digit _)
    · rw [digitsVal_natReprChars]
      have hd : d = ((⌊d⌋.toNat : ℕ) : ℚ) := by linarith
      rw [← hd]
      simp
  · rw [if_neg hf0]
    obtain ⟨hden, herr, hmono, h32big⟩ :=
      bestFracLoop_spec (d - ((⌊d⌋.toNat : ℕ) : ℚ)) hfnn (List.range' 1 16)
        ⟨0, 1, d - ((⌊d⌋.toNat : ℕ) : ℚ)⟩ (by decide) (by norm_num)
        (by simp [abs_of_nonneg hfnn])
    have h32 := h32big (by decide)
    set B := bestFracLoop (d - ((⌊d⌋.toNat : ℕ) : ℚ)) (List.range' 1 16)
      ⟨0, 1, d - ((⌊d⌋.toNat : ℕ) : ℚ)⟩ with hB
    have hgeq : findGCD B.num B.den = Nat.gcd B.num B.den := findGCD_eq_gcd _ _
    have hbd : B.den / findGCD B.num B.den ≠ 0 := by
      rw [hgeq]; exact div_gcd_ne_zero B.num B.den hden
    have hval : ((B.num / findGCD B.num B.den : ℕ) : ℚ) /
        ((B.den / findGCD B.num B.den : ℕ) : ℚ) = (B.num : ℚ) / (B.den : ℚ) := by
      rw [hgeq]; exact gcd_div_cast B.num B.den hden
    have hdzv : digitsVal (natReprChars (B.den / findGCD B.num B.den)) ≠ 0 := by
      rw [digitsVal_natReprChars]; exact hbd
    have herrd : |(B.num : ℚ) / (B.den : ℚ) - (d - ((⌊d⌋.toNat : ℕ) : ℚ))| ≤ 1 / 32 := by
      rw [abs_sub_comm, ← herr]
      exact h32
    by_cases hW0 : ⌊d⌋.toNat = 0
    · rw [if_pos hW0]
      refine ⟨(B.num : ℚ) / (B.den : ℚ), ?_, ?_⟩
      · rw [fractionToDecimal, cleanChars_frac_format,
          parseFractionChars_frac _ _ (natReprChars_ne_nil _) (natReprChars_all_digit _)
            (natReprChars_ne_nil _) (natReprChars_all_digit _) hdzv]
        rw [digitsVal_natReprChars, digitsVal_natReprChars, hval]
      · have hdzero : ((⌊d⌋.toNat : ℕ) : ℚ) = 0 := by rw [hW0]; norm_num
        rw [hdzero] at herrd
        simpa using herrd
    · rw [if_neg hW0]
      refine ⟨((⌊d⌋.toNat : ℕ) : ℚ) + (B.num : ℚ) / (B.den : ℚ), ?_, ?_⟩
      · rw [fractionToDecimal, cleanChars_mixed_format,
          parseFractionChars_mixed _ _ _ (natReprChars_ne_nil _) (natReprChars_all_digit _)
            (natReprChars_ne_nil _) (natReprChars_all_digit _)
            (natReprChars_ne_nil _) (natReprChars_all_digit _) hdzv]
        rw [digitsVal_natReprChars, digitsVal_natReprChars, digitsVal_natReprChars, hval]
      · have : ((⌊d⌋.toNat : ℕ) : ℚ) + (B.num : ℚ) / (B.den : ℚ) - d =
            (B.num : ℚ) / (B.den : ℚ) - (d - ((⌊d⌋.toNat : ℕ) : ℚ)) := by ring
        rw [this]
        exact herrd

/-- Witness for C1 at the concrete input `d = 1/3`. -/
theorem decimalToFraction_roundtrip_witness :
    ∃ q : ℚ, fractionToDecimal (decimalToFraction (1/3) 16) = some q ∧ |q - 1/3| ≤ 1 / 32 :=
  decimalToFraction_roundtrip (1/3) (by norm_num) (by norm_num)

/-! ## RenderEngine: scale-to-fit layout (drawing-utils.ts lines 42–64,
identical in drawing-utils.optimized.ts lines 85–106) -/

/-- Values computed by the layout portion of `drawStoneMockup`. -/
structure FitLayout where
  finalScale : ℚ
  scaledWidth : ℚ
  scaledHeight : ℚ
  x : ℚ
  y : ℚ
deriving DecidableEq

/-- Scale and position computation of `drawStoneMockup`: fit scale from the
padded surface, multiplied by the user scale option, then centering.  Line by
line from the source; the drawing calls that follow consume these values
unchanged. -/
def drawStoneMockupLayout (canvasWidth canvasHeight padding width height scale : ℚ) :
    FitLayout :=
  let maxWidth := canvasWidth - padding * 2
  let maxHeight := canvasHeight - padding * 2
  let widthScale := maxWidth / width
  let heightScale := maxHeight / height
  let finalScale := min widthScale heightScale * scale
  let scaledWidth := width * finalScale
  let scaledHeight := height * finalScale
  let x := (canvasWidth - scaledWidth) / 2
  let y := (canvasHeight - scaledHeight) / 2
  ⟨finalScale, scaledWidth, scaledHeight, x, y⟩

/-- Meaning of "the scaled piece plus the padding fits inside the drawing
surface": the scaled rectangle has nonnegative extent and keeps at least
`padding` clearance to every edge of the surface. -/
def fitsWithinSurface (canvasWidth canvasHeight padding : ℚ) (L : FitLayout) : Prop :=
  0 ≤ L.scaledWidth ∧ 0 ≤ L.scaledHeight ∧
  padding ≤ L.x ∧ L.x + L.scaledWidth ≤ canvasWidth - padding ∧
  padding ≤ L.y ∧ L.y + L.scaledHeight ≤ canvasHeight - padding

/-- C2 counterexample: with the recommended zoom `scale = 2` (surface 800×600,
padding 40, piece 1×1) the scaled piece is 1040 units wide on an 800-unit
surface, so it does not fit; and with a padding exceeding half the surface
(padding 1000, `scale = 1`) the computed geometry degenerates to a
negative-size rectangle.  The claim's fit guarantee therefore fails as
stated. -/
theorem drawStoneMockup_fit_counterexample :
    ¬ fitsWithinSurface 800 600 40 (drawStoneMockupLayout 800 600 40 1 1 2) ∧
    ¬ fitsWithinSurface 800 600 1000 (drawStoneMockupLayout 800 600 1000 1 1 1) := by
  constructor
  · intro h
    have h3 : (40 : ℚ) ≤ (800 - 1 * (min ((800 - 40 * 2) / 1) ((600 - 40 * 2) / 1) * 2)) / 2 :=
      h.2.2.1
    rw [show ((800 : ℚ) - 40 * 2) / 1 = 720 by norm_num,
      show ((600 : ℚ) - 40 * 2) / 1 = 520 by norm_num,
      show min (720 : ℚ) 520 = 520 by rw [min_def]; norm_num] at h3
    norm_num at h3
  · intro h
    have h0 : (0 : ℚ) ≤ 1 * (min ((800 - 1000 * 2) / 1) ((600 - 1000 * 2) / 1) * 1) := h.1
    rw [show ((800 : ℚ) - 1000 * 2) / 1 = -1200 by norm_num,
      show ((600 : ℚ) - 1000 * 2) / 1 = -1400 by norm_num,
      show min (-1200 : ℚ) (-1400) = -1400 by rw [min_def]; norm_num] at h0
    norm_num at h0

/-- C2 (amended): for positive dimensions, a padding of at most half the
surface in each direction and a zoom option `0 < scale ≤ 1`, `drawStoneMockup`
computes `finalScale = min((canvasWidth - 2·padding)/width,
(canvasHeight - 2·padding)/height) · scale`, centers the scaled rectangle, and
the scaled piece plus the padding fits inside the drawing surface whatever the
aspect ratio.  (The counterexample above shows the fit fails for `scale > 1`
or oversized padding, so the claim is restricted to exactly these ranges.) -/
theorem drawStoneMockup_fit (canvasWidth canvasHeight padding width height scale : ℚ)
    (hw : 0 < width) (hh : 0 < height) (hp : 0 ≤ padding)
    (hpw : padding * 2 ≤ canvasWidth) (hph : padding * 2 ≤ canvasHeight)
    (hs0 : 0 < scale) (hs1 : scale ≤ 1) :
    (drawStoneMockupLayout canvasWidth canvasHeight padding width height scale).finalScale =
      min ((canvasWidth - padding * 2) / width) ((canvasHeight - padding * 2) / height) *
        scale ∧
    (drawStoneMockupLayout canvasWidth canvasHeight padding width height scale).x =
      (canvasWidth -
        (drawStoneMockupLayout canvasWidth canvasHeight padding width height scale).scaledWidth)
        / 2 ∧
    (drawStoneMockupLayout canvasWidth canvasHeight padding width height scale).y =
      (canvasHeight -
        (drawStoneMockupLayout canvasWidth canvasHeight padding width height scale).scaledHeight)
        / 2 ∧
    fitsWithinSurface canvasWidth canvasHeight padding
      (drawStoneMockupLayout canvasWidth canvasHeight padding width height scale) := by
  have hmaxw : 0 ≤ canvasWidth - padding * 2 := by linarith
  have hmaxh : 0 ≤ canvasHeight - padding * 2 := by linarith
  have hfitw : 0 ≤ (canvasWidth - padding * 2) / width := by positivity
  have hfith : 0 ≤ (canvasHeight - padding * 2) / height := by positivity
  have hmin : 0 ≤ min ((canvasWidth - padding * 2) / width)
      ((canvasHeight - padding * 2) / height) := le_min hfitw hfith
  have hfs : 0 ≤ min ((canvasWidth - padding * 2) / width)
      ((canvasHeight - padding * 2) / height) * scale := by positivity
  have hkeyW : min ((canvasWidth - padding * 2) / width)
      ((canvasHeight - padding * 2) / height) * scale ≤
        (canvasWidth - padding * 2) / width := by
    calc min ((canvasWidth - padding * 2) / width) ((canvasHeight - padding * 2) / height) *
          scale
        ≤ (canvasWidth - padding * 2) / width * scale := by
          apply mul_le_mul_of_nonneg_right (min_le_left _ _) (le_of_lt hs0)
      _ ≤ (canvasWidth - padding * 2) / width * 1 := by
          apply mul_le_mul_of_nonneg_left hs1 hfitw
      _ = (canvasWidth - padding * 2) / width := by ring
  have hkeyH : min ((canvasWidth - padding * 2) / width)
      ((canvasHeight - padding * 2) / height) * scale ≤
        (canvasHeight - padding * 2) / height := by
    calc min ((canvasWidth - padding * 2) / width) ((canvasHeight - padding * 2) / height) *
          scale
        ≤ (canvasHeight - padding * 2) / height * scale := by
          apply mul_le_mul_of_nonneg_right (min_le_right _ _) (le_of_lt hs0)
      _ ≤ (canvasHeight - padding * 2) / height * 1 := by
          apply mul_le_mul_of_nonneg_left hs1 hfith
      _ = (canvasHeight - padding * 2) / height := by ring
  have hswle : width * (min ((canvasWidth - padding * 2) / width)
      ((canvasHeight - padding * 2) / height) * scale) ≤ canvasWidth - padding * 2 := by
    calc width * (min ((canvasWidth - padding * 2) / width)
          ((canvasHeight - padding * 2) / height) * scale)
        ≤ width * ((canvasWidth - padding * 2) / width) := by
          apply mul_le_mul_of_nonneg_left hkeyW (le_of_lt hw)
      _ = canvasWidth - padding * 2 := by
          rw [mul_comm, div_mul_cancel₀ _ (ne_of_gt hw)]
  have hshle : height * (min ((canvasWidth - padding * 2) / width)
      ((canvasHeight - padding * 2) / height) * scale) ≤ canvasHeight - padding * 2 := by
    calc height * (min ((canvasWidth - padding * 2) / width)
          ((canvasHeight - padding * 2) / height) * scale)
        ≤ height * ((canvasHeight - padding * 2) / height) := by
          apply mul_le_mul_of_nonneg_left hkeyH (le_of_lt hh)
      _ = canvasHeight - padding * 2 := by
          rw [mul_comm, div_mul_cancel₀ _ (ne_of_gt hh)]
  have hswnn : 0 ≤ width * (min ((canvasWidth - padding * 2) / width)
      ((canvasHeight - padding * 2) / height) * scale) := by positivity
  have hshnn : 0 ≤ height * (min ((canvasWidth - padding * 2) / width)
      ((canvasHeight - padding * 2) / height) * scale) := by positivity
  refine ⟨rfl, rfl, rfl, hswnn, hshnn, ?_, ?_, ?_, ?_⟩
  · show padding ≤ (canvasWidth - width * (min ((canvasWidth - padding * 2) / width)
      ((canvasHeight - padding * 2) / height) * scale)) / 2
    linarith
  · show (canvasWidth - width * (min ((canvasWidth - padding * 2) / width)
      ((canvasHeight - padding * 2) / height) * scale)) / 2 +
        width * (min ((canvasWidth - padding * 2) / width)
          ((canvasHeight - padding * 2) / height) * scale) ≤ canvasWidth - padding
    linarith
  · show padding ≤ (canvasHeight - height * (min ((canvasWidth - padding * 2) / width)
      ((canvasHeight - padding * 2) / height) * scale)) / 2
    linarith
  · show (canvasHeight - height * (min ((canvasWidth - padding * 2) / width)
      ((canvasHeight - padding * 2) / height) * scale)) / 2 +
        height * (min ((canvasWidth - padding * 2) / width)
          ((canvasHeight - padding * 2) / height) * scale) ≤ canvasHeight - padding
    linarith

/-- Witness for the amended C2 at surface 800×600, padding 40, piece 24×4,
scale 1. -/
theorem drawStoneMockup_fit_witness :
    (drawStoneMockupLayout 800 600 40 24 4 1).finalScale =
      min ((800 - 40 * 2) / 24) ((600 - 40 * 2) / 4) * 1 ∧
    (drawStoneMockupLayout 800 600 40 24 4 1).x =
      (800 - (drawStoneMockupLayout 800 600 40 24 4 1).scaledWidth) / 2 ∧
    (drawStoneMockupLayout 800 600 40 24 4 1).y =
      (600 - (drawStoneMockupLayout 800 600 40 24 4 1).scaledHeight) / 2 ∧
    fitsWithinSurface 800 600 40 (drawStoneMockupLayout 800 600 40 24 4 1) :=
  drawStoneMockup_fit 800 600 40 24 4 1 (by norm_num) (by norm_num) (by norm_num)
    (by norm_num) (by norm_num) (by norm_num) (by norm_num)

/-! ## RenderEngine: polished-edge stroking (drawing-utils.ts lines 166–230
and drawing-utils.optimized.ts lines 213–273) -/

/-- Straight segment recorded in a canvas path. -/
structure Seg where
  x1 : ℚ
  y1 : ℚ
  x2 : ℚ
  y2 : ℚ
deriving DecidableEq

/-- Stroke event: the path flushed by one `ctx.stroke()` call together with
the pen state (`lineWidth`, `strokeStyle`) at that moment. -/
structure StrokeEv where
  path : List Seg
  width : ℚ
  style : String
deriving DecidableEq

/-- State machine for the 2D canvas context, recording the current pen state,
the open path and the ordered list of stroke events issued so far. -/
structure Ctx where
  strokeStyle : String
  lineWidth : ℚ
  cur : Option (ℚ × ℚ)
  path : List Seg
  strokes : List StrokeEv
deriving DecidableEq

/-- Effect of assigning `ctx.strokeStyle`. -/
def setStrokeStyle (s : String) (c : Ctx) : Ctx := { c with strokeStyle := s }

/-- Effect of assigning `ctx.lineWidth`. -/
def setLineWidth (w : ℚ) (c : Ctx) : Ctx := { c with lineWidth := w }

/-- Effect of `ctx.beginPath()`: clears the open path. -/
def beginPath (c : Ctx) : Ctx := { c with cur := none, path := [] }

/-- Effect of `ctx.moveTo(px, py)`. -/
def moveTo (px py : ℚ) (c : Ctx) : Ctx := { c with cur := some (px, py) }

/-- Effect of `ctx.lineTo(px, py)`: appends a segment from the current point
(or just moves when there is none, as the canvas does). -/
def lineTo (px py : ℚ) (c : Ctx) : Ctx :=
  match c.cur with
  | some (qx, qy) => { c with path := c.path ++ [⟨qx, qy, px, py⟩], cur := some (px, py) }
  | none => { c with cur := some (px, py) }

/-- Effect of `ctx.stroke()`: records a stroke event for the open path with
the current pen state (the canvas keeps the path open). -/
def stroke (c : Ctx) : Ctx :=
  { c with strokes := c.strokes ++ [⟨c.path, c.lineWidth, c.strokeStyle⟩] }

/-- Positions of the X marks along an edge: `20, 40, …` strictly below the
limit, the closed form of `for (let i = spacing; i < limit; i += spacing)`
with `spacing = 20`. -/
def markPositions (limit : ℚ) : List ℚ :=
  (List.range (⌈limit / 20⌉ - 1).toNat).map (fun k => 20 * ((k : ℚ) + 1))

/-- Loop body of the original `drawXMarks` at one position of a horizontal
edge: two short diagonal strokes, each its own `beginPath`/`stroke` pair
(`markSize = 6`). -/
def xMarkStepH (startX startY : ℚ) (c : Ctx) (i : ℚ) : Ctx :=
  let c := stroke (lineTo (startX + i + 6) (startY + 6)
    (moveTo (startX + i - 6) (startY - 6) (beginPath c)))
  stroke (lineTo (startX + i + 6) (startY - 6)
    (moveTo (startX + i - 6) (startY + 6) (beginPath c)))

/-- Loop body of the original `drawXMarks` at one position of a vertical
edge. -/
def xMarkStepV (startX startY : ℚ) (c : Ctx) (i : ℚ) : Ctx :=
  let c := stroke (lineTo (startX + 6) (startY + i + 6)
    (moveTo (startX - 6) (startY + i - 6) (beginPath c)))
  stroke (lineTo (startX + 6) (startY + i - 6)
    (moveTo (startX - 6) (startY + i + 6) (beginPath c)))

/-- Embedding of `drawXMarks` (drawing-utils.ts lines 232–283): sets the pen
to red width 2, then strokes each X mark as two separate path/stroke pairs.
`horizontal` selects which of `width`/`height` bounds the loop. -/
def drawXMarks (startX startY width height : ℚ) (horizontal : Bool) (c : Ctx) : Ctx :=
  let c := setLineWidth 2 (setStrokeStyle "red" c)
  if horizontal then (markPositions width).foldl (xMarkStepH startX startY) c
  else (markPositions height).foldl (xMarkStepV startX startY) c

/-- Embedding of `drawPolishedEdges` (drawing-utils.ts lines 166–230): the
original, non-optimized routine.  Each selected side gets its own
`beginPath`/`moveTo`/`lineTo`/`stroke` sequence, followed by that side's X
marks when `useXMarks` is set. -/
def drawPolishedEdges (x y width height : ℚ) (polishedEdges : List String)
    (useXMarks : Bool) (c0 : Ctx) : Ctx :=
  let c := setLineWidth 4 (setStrokeStyle "red" c0)
  let c := if polishedEdges.contains "top" then
      let c := stroke (lineTo (x + width) y (moveTo x y (beginPath c)))
      if useXMarks then drawXMarks x y width 0 true c else c
    else c
  let c := if polishedEdges.contains "bottom" then
      let c := stroke (lineTo (x + width) (y + height) (moveTo x (y + height) (beginPath c)))
      if useXMarks then drawXMarks x (y + height) width 0 true c else c
    else c
  let c := if polishedEdges.contains "left" then
      let c := stroke (lineTo x (y + height) (moveTo x y (beginPath c)))
      if useXMarks then drawXMarks x y 0 height false c else c
    else c
  if polishedEdges.contains "right" then
    let c := stroke (lineTo (x + width) (y + height) (moveTo (x + width) y (beginPath c)))
    if useXMarks then drawXMarks (x + width) y 0 height false c else c
  else c

/-- Loop body of `drawXMarksOptimized` at one position of a horizontal edge:
only `moveTo`/`lineTo`, all marks share one batched path. -/
def xMarkStepOptH (startX startY : ℚ) (c : Ctx) (i : ℚ) : Ctx :=
  lineTo (startX + i + 6) (startY - 6)
    (moveTo (startX + i - 6) (startY + 6)
      (lineTo (startX + i + 6) (startY + 6)
        (moveTo (startX + i - 6) (startY - 6) c)))

/-- Loop body of `drawXMarksOptimized` at one position of a vertical edge. -/
def xMarkStepOptV (startX startY : ℚ) (c : Ctx) (i : ℚ) : Ctx :=
  lineTo (startX + 6) (startY + i - 6)
    (moveTo (startX - 6) (startY + i + 6)
      (lineTo (startX + 6) (startY + i + 6)
        (moveTo (startX - 6) (startY + i - 6) c)))

/-- Embedding of `drawXMarksOptimized` (drawing-utils.optimized.ts lines
276–320): red pen of width 2, one `beginPath`, all marks of the side, one
`stroke`. -/
def drawXMarksOptimized (startX startY width height : ℚ) (horizontal : Bool) (c : Ctx) :
    Ctx :=
  let c := beginPath (setLineWidth 2 (setStrokeStyle "red" c))
  if horizontal then stroke ((markPositions width).foldl (xMarkStepOptH startX startY) c)
  else stroke ((markPositions height).foldl (xMarkStepOptV startX startY) c)

/-- Batched path phase of `drawPolishedEdgesOptimized` (the four
`polishedEdges.includes(side)` blocks between `ctx.beginPath()` and
`ctx.stroke()`): each selected side contributes one `moveTo`/`lineTo` pair to
the shared path. -/
def polishedEdgePath (x y width height : ℚ) (polishedEdges : List String) (c : Ctx) : Ctx :=
  let c := if polishedEdges.contains "top" then
      lineTo (x + width) y (moveTo x y c) else c
  let c := if polishedEdges.contains "bottom" then
      lineTo (x + width) (y + height) (moveTo x (y + height) c) else c
  let c := if polishedEdges.contains "left" then
      lineTo x (y + height) (moveTo x y c) else c
  if polishedEdges.contains "right" then
    lineTo (x + width) (y + height) (moveTo (x + width) y c) else c

/-- X-mark phase of `drawPolishedEdgesOptimized` (the four conditional
`drawXMarksOptimized` calls under `if (useXMarks)`). -/
def polishedEdgeXMarks (x y width height : ℚ) (polishedEdges : List String) (c : Ctx) :
    Ctx :=
  let c := if polishedEdges.contains "top" then
      drawXMarksOptimized x y width 0 true c else c
  let c := if polishedEdges.contains "bottom" then
      drawXMarksOptimized x (y + height) width 0 true c else c
  let c := if polishedEdges.contains "left" then
      drawXMarksOptimized x y 0 height false c else c
  if polishedEdges.contains "right" then
    drawXMarksOptimized (x + width) y 0 height false c else c

/-- Embedding of `drawPolishedEdgesOptimized` (drawing-utils.optimized.ts
lines 213–273): early return on no edges; otherwise all selected sides are
accumulated into one batched path and flushed by a single `stroke`, then the
X marks are drawn per side (each side's marks batched into one path). -/
def drawPolishedEdgesOptimized (x y width height : ℚ) (polishedEdges : List String)
    (useXMarks : Bool) (c0 : Ctx) : Ctx :=
  if polishedEdges.length = 0 then c0
  else
    let c := setLineWidth 4 (setStrokeStyle "red" c0)
    let c := stroke (polishedEdgePath x y width height polishedEdges (beginPath c))
    if useXMarks then
      polishedEdgeXMarks x y width height polishedEdges (setLineWidth 2 c)
    else c

/-- Segments of the selected sides, in the order the optimized routine visits
them (top, bottom, left, right). -/
def edgeSegs (x y width height : ℚ) (polishedEdges : List String) : List Seg :=
  (if polishedEdges.contains "top" then [⟨x, y, x + width, y⟩] else []) ++
  (if polishedEdges.contains "bottom" then [⟨x, y + height, x + width, y + height⟩] else []) ++
  (if polishedEdges.contains "left" then [⟨x, y, x, y + height⟩] else []) ++
  (if polishedEdges.contains "right" then [⟨x + width, y, x + width, y + height⟩] else [])

/-- Fresh context: default pen, no path, no strokes. -/
def initialCtx : Ctx := ⟨"#000000", 1, none, [], []⟩

theorem lineTo_moveTo (p1x p1y p2x p2y : ℚ) (c : Ctx) :
    lineTo p2x p2y (moveTo p1x p1y c) =
      { c with cur := some (p2x, p2y), path := c.path ++ [⟨p1x, p1y, p2x, p2y⟩] } := rfl

theorem polishedEdgePath_spec (x y width height : ℚ) (edges : List String) (c : Ctx) :
    (polishedEdgePath x y width height edges c).path =
        c.path ++ edgeSegs x y width height edges ∧
    (polishedEdgePath x y width height edges c).strokes = c.strokes ∧
    (polishedEdgePath x y width height edges c).lineWidth = c.lineWidth ∧
    (polishedEdgePath x y width height edges c).strokeStyle = c.strokeStyle := by
  by_cases ht : "top" ∈ edges <;> by_cases hb : "bottom" ∈ edges <;>
    by_cases hl : "left" ∈ edges <;> by_cases hr : "right" ∈ edges <;>
    simp [polishedEdgePath, edgeSegs, lineTo_moveTo, ht, hb, hl, hr]

theorem foldl_marks_strokes (f : Ctx → ℚ → Ctx)
    (hf : ∀ c i, (f c i).strokes = c.strokes ∧ (f c i).lineWidth = c.lineWidth ∧
      (f c i).strokeStyle = c.strokeStyle) :
    ∀ (ps : List ℚ) (c : Ctx),
      (ps.foldl f c).strokes = c.strokes ∧ (ps.foldl f c).lineWidth = c.lineWidth ∧
      (ps.foldl f c).strokeStyle = c.strokeStyle := by
  intro ps
  induction ps with
  | nil => intro c; exact ⟨rfl, rfl, rfl⟩
  | cons p t ih =>
    intro c
    obtain ⟨h1, h2, h3⟩ := ih (f c p)
    obtain ⟨g1, g2, g3⟩ := hf c p
    exact ⟨by rw [List.foldl_cons, h1, g1], by rw [List.foldl_cons, h2, g2],
      by rw [List.foldl_cons, h3, g3]⟩

theorem xMarkStepOptH_state (sx sy : ℚ) (c : Ctx) (i : ℚ) :
    (xMarkStepOptH sx sy c i).strokes = c.strokes ∧
    (xMarkStepOptH sx sy c i).lineWidth = c.lineWidth ∧
    (xMarkStepOptH sx sy c i).strokeStyle = c.strokeStyle := by
  simp [xMarkStepOptH, lineTo, moveTo]

theorem xMarkStepOptV_state (sx sy : ℚ) (c : Ctx) (i : ℚ) :
    (xMarkStepOptV sx sy c i).strokes = c.strokes ∧
    (xMarkStepOptV sx sy c i).lineWidth = c.lineWidth ∧
    (xMarkStepOptV sx sy c i).strokeStyle = c.strokeStyle := by
  simp [xMarkStepOptV, lineTo, moveTo]

/-- One optimized X-mark call appends exactly one stroke event, of width 2 and
style red. -/
theorem drawXMarksOptimized_strokes (sx sy w h : ℚ) (dir : Bool) (c : Ctx) :
    ∃ p, (drawXMarksOptimized sx sy w h dir c).strokes = c.strokes ++ [⟨p, 2, "red"⟩] := by
  rw [drawXMarksOptimized]
  cases dir
  · obtain ⟨h1, h2, h3⟩ := foldl_marks_strokes (xMarkStepOptV sx sy)
      (xMarkStepOptV_state sx sy) (markPositions h)
      (beginPath (setLineWidth 2 (setStrokeStyle "red" c)))
    simp only [beginPath, setLineWidth, setStrokeStyle] at h1 h2 h3
    refine ⟨((markPositions h).foldl (xMarkStepOptV sx sy)
      (beginPath (setLineWidth 2 (setStrokeStyle "red" c)))).path, ?_⟩
    simp [stroke, beginPath, setLineWidth, setStrokeStyle, h1, h2, h3]
  · obtain ⟨h1, h2, h3⟩ := foldl_marks_strokes (xMarkStepOptH sx sy)
      (xMarkStepOptH_state sx sy) (markPositions w)
      (beginPath (setLineWidth 2 (setStrokeStyle "red" c)))
    simp only [beginPath, setLineWidth, setStrokeStyle] at h1 h2 h3
    refine ⟨((markPositions w).foldl (xMarkStepOptH sx sy)
      (beginPath (setLineWidth 2 (setStrokeStyle "red" c)))).path, ?_⟩
    simp [stroke, beginPath, setLineWidth, setStrokeStyle, h1, h2, h3]

/-- The X-mark phase only appends stroke events of width 2. -/
theorem polishedEdgeXMarks_strokes (x y width height : ℚ) (edges : List String) (c : Ctx) :
    ∃ ms, (polishedEdgeXMarks x y width height edges c).strokes = c.strokes ++ ms ∧
      ∀ s ∈ ms, s.width = 2 := by
  rw [polishedEdgeXMarks]
  have step : ∀ (b : Bool) (g : Ctx → Ctx)
      (hg : ∀ cc : Ctx, ∃ p, (g cc).strokes = cc.strokes ++ [⟨p, 2, "red"⟩]) (cc : Ctx),
      ∃ ms, (if b then g cc else cc).strokes = cc.strokes ++ ms ∧ ∀ s ∈ ms, s.width = 2 := by
    intro b g hg cc
    cases b
    · exact ⟨[], by simp, by simp⟩
    · obtain ⟨p, hp⟩ := hg cc
      refine ⟨[⟨p, 2, "red"⟩], by simpa using hp, ?_⟩
      intro s hs
      rw [List.mem_singleton.mp hs]
  obtain ⟨m1, e1, w1⟩ := step (edges.contains "top") _
    (fun cc => drawXMarksOptimized_strokes x y width 0 true cc) c
  obtain ⟨m2, e2, w2⟩ := step (edges.contains "bottom") _
    (fun cc => drawXMarksOptimized_strokes x (y + height) width 0 true cc)
    (if edges.contains "top" then drawXMarksOptimized x y width 0 true c else c)
  obtain ⟨m3, e3, w3⟩ := step (edges.contains "left") _
    (fun cc => drawXMarksOptimized_strokes x y 0 height false cc)
    (if edges.contains "bottom" then
      drawXMarksOptimized x (y + height) width 0 true
        (if edges.contains "top" then drawXMarksOptimized x y width 0 true c else c)
      else (if edges.contains "top" then drawXMarksOptimized x y width 0 true c else c))
  obtain ⟨m4, e4, w4⟩ := step (edges.contains "right") _
    (fun cc => drawXMarksOptimized_strokes (x + width) y 0 height false cc)
    (if edges.contains "left" then
      drawXMarksOptimized x y 0 height false
        (if edges.contains "bottom" then
          drawXMarksOptimized x (y + height) width 0 true
            (if edges.contains "top" then drawXMarksOptimized x y width 0 true c else c)
          else (if edges.contains "top" then drawXMarksOptimized x y width 0 true c else c))
      else
        (if edges.contains "bottom" then
          drawXMarksOptimized x (y + height) width 0 true
            (if edges.contains "top" then drawXMarksOptimized x y width 0 true c else c)
          else (if edges.contains "top" then drawXMarksOptimized x y width 0 true c else c)))
  refine ⟨m1 ++ m2 ++ m3 ++ m4, ?_, ?_⟩
  · rw [e4, e3, e2, e1]
    simp [List.append_assoc]
  · intro s hs
    rcases List.mem_append.mp hs with hs | hs
    · rcases List.mem_append.mp hs with hs | hs
      · rcases List.mem_append.mp hs with hs | hs
        · exact w1 s hs
        · exact w2 s hs
      · exact w3 s hs
    · exact w4 s hs

/-- C9 counterexample: the original (non-optimized) `drawPolishedEdges` of
drawing-utils.ts, rendering a piece at (0,0) of size 100×50 with all four
edges polished (X marks off), issues four separate colored-edge stroke calls
— one per side, each flushing a single-segment path — not one batched
stroke.  The claim as stated over every render call is therefore false. -/
theorem drawPolishedEdges_perSide_counterexample :
    (drawPolishedEdges 0 0 100 50 ["top", "bottom", "left", "right"] false
        initialCtx).strokes.length = 4 ∧
    ¬ ((drawPolishedEdges 0 0 100 50 ["top", "bottom", "left", "right"] false
        initialCtx).strokes.length = 1) ∧
    (drawPolishedEdges 0 0 100 50 ["top", "bottom", "left", "right"] false
        initialCtx).strokes.map (fun s => s.path.length) = [1, 1, 1, 1] := by
  refine ⟨?_, by decide, ?_⟩ <;> decide

/-- C9 (amended): the optimized render path `drawPolishedEdgesOptimized`
satisfies the claim: with no polished edges it returns the context unchanged
(zero colored-edge stroke operations); with a nonempty edge selection it
emits exactly one batched width-4 red stroke whose path holds the segments of
all selected sides, followed only by width-2 X-mark strokes.  The original
`drawPolishedEdges` strokes once per side instead (see the counterexample). -/
theorem drawPolishedEdgesOptimized_batched (x y width height : ℚ) (edges : List String)
    (useXMarks : Bool) (c0 : Ctx) :
    (edges = [] → drawPolishedEdgesOptimized x y width height edges useXMarks c0 = c0) ∧
    (edges ≠ [] → ∃ ms,
      (drawPolishedEdgesOptimized x y width height edges useXMarks c0).strokes =
        c0.strokes ++ ⟨edgeSegs x y width height edges, 4, "red"⟩ :: ms ∧
      ∀ s ∈ ms, s.width = 2) := by
  constructor
  · intro he
    subst he
    rw [drawPolishedEdgesOptimized]
    simp
  · intro he
    rw [drawPolishedEdgesOptimized, if_neg (by simpa [List.length_eq_zero] using he)]
    obtain ⟨hp, hs, hw4, hst⟩ := polishedEdgePath_spec x y width height edges
      (beginPath (setLineWidth 4 (setStrokeStyle "red" c0)))
    simp only [beginPath, setLineWidth, setStrokeStyle] at hp hs hw4 hst
    have hstroke : (stroke (polishedEdgePath x y width height edges
        (beginPath (setLineWidth 4 (setStrokeStyle "red" c0))))).strokes =
        c0.strokes ++ [⟨edgeSegs x y width height edges, 4, "red"⟩] := by
      simp [stroke, beginPath, setLineWidth, setStrokeStyle, hp, hs, hw4, hst]
    cases useXMarks
    · refine ⟨[], ?_, by simp⟩
      simpa using hstroke
    · obtain ⟨ms, hms, hw2⟩ := polishedEdgeXMarks_strokes x y width height edges
        (setLineWidth 2 (stroke (polishedEdgePath x y width height edges
          (beginPath (setLineWidth 4 (setStrokeStyle "red" c0))))))
      refine ⟨ms, ?_, hw2⟩
      simp only [if_pos]
      rw [show (setLineWidth 2 (stroke (polishedEdgePath x y width height edges
          (beginPath (setLineWidth 4 (setStrokeStyle "red" c0)))))).strokes =
          (stroke (polishedEdgePath x y width height edges
            (beginPath (setLineWidth 4 (setStrokeStyle "red" c0))))).strokes from rfl] at hms
      rw [hms, hstroke]
      simp

/-- Witness for the amended C9 with all four edges selected and X marks on. -/
theorem drawPolishedEdgesOptimized_batched_witness :
    ∃ ms, (drawPolishedEdgesOptimized 0 0 100 50 ["top", "bottom", "left", "right"] true
        initialCtx).strokes =
      initialCtx.strokes ++
        ⟨edgeSegs 0 0 100 50 ["top", "bottom", "left", "right"], 4, "red"⟩ :: ms ∧
      ∀ s ∈ ms, s.width = 2 :=
  (drawPolishedEdgesOptimized_batched 0 0 100 50 ["top", "bottom", "left", "right"] true
    initialCtx).2 (by decide)

/-! ## ExportPipeline (src/unnamed/part_006) -/

/-- Operations issued against the jsPDF document, one constructor per jsPDF
method used by the export pipeline.  `text` is the single-string overload of
`pdf.text`; `textLines` is the string-array overload used for word-wrapped
notes. -/
inductive PdfOp where
  | setFontSize (size : ℕ)
  | text (s : String) (x y : ℚ)
  | textLines (lines : List String) (x y : ℚ)
  | addPage
  | addImage (x y width height : ℚ)
  | setTextColor (r g b : ℕ)
deriving DecidableEq

/-- Rendered canvas as the export pipeline observes it: whether
`canvas.toDataURL('image/png', 0.95)` yields image data or throws. -/
structure Canvas where
  toDataURLOk : Bool
deriving DecidableEq

/-- Specification fields read by the PDF builders.  `displayWidth` and
`displayHeight` stand for the already-resolved `specs.displayWidth ||
specs.width` and `specs.displayHeight || specs.height` display strings. -/
structure StoneSpecs where
  displayWidth : String
  displayHeight : String
  materialType : String
  thickness : String
  quantity : ℕ
  polishedEdges : Option (List String)
  notes : Option String
deriving DecidableEq, Inhabited

/-- Element of the `specsArray` passed to `exportMultipleToPDF`: the
`{id, specs, notes}` pieces built by the callers (the opaque `id` is not read
by the pipeline). -/
structure Item where
  specs : StoneSpecs
  notes : Option String
deriving DecidableEq, Inhabited

/-- `PDF_MARGINS.left` of part_006. -/
def PDF_MARGIN_LEFT : ℚ := 14

/-- `PDF_MARGINS.top` of part_006. -/
def PDF_MARGIN_TOP : ℚ := 20

/-- `IMAGE_SIZE.width` of part_006. -/
def IMAGE_WIDTH : ℚ := 180

/-- `IMAGE_SIZE.height` of part_006. -/
def IMAGE_HEIGHT : ℚ := 120

/-- Page height (in the configured `mm` unit) of a jsPDF document created
with `PDF_CONFIG = { orientation: 'landscape', format: 'a4' }`: an A4 sheet
is 297×210 mm, so the landscape page is 210 units tall. -/
def a4LandscapeHeight : ℚ := 210

/-- JS `a || b` on optional strings: the empty string is falsy. -/
def jsOrString (a b : Option String) : Option String :=
  match a with
  | some s => if s = "" then b else some s
  | none => b

/-- JS `s.trim()`: strips leading and trailing whitespace. -/
def jsTrim (s : String) : String :=
  ⟨((s.data.dropWhile isSpaceCh).reverse.dropWhile isSpaceCh).reverse⟩

/-- The guard `notes && notes.trim() !== ''` used before rendering a notes
block. -/
def notesPresent (notes : Option String) : Bool :=
  match notes with
  | some s => !(s == "") && !(jsTrim s == "")
  | none => false

/-- The polished-edges line: `specs.polishedEdges && Array.isArray(...) ?
'Polished Edges: ' + join(', ') : 'Polished Edges: None'`. -/
def polishedEdgesText (specs : StoneSpecs) : String :=
  match specs.polishedEdges with
  | some edges => "Polished Edges: " ++ String.intercalate ", " edges
  | none => "Polished Edges: None"

/-- The quantity line value `${specs.quantity || 1}` (JS `||`: quantity 0 is
falsy and displays as 1). -/
def quantityText (q : ℕ) : String := natRepr (if q = 0 then 1 else q)

/-- Embedding of `addPieceToPDF` (part_006 lines 258–352) as the list of
document operations it performs.  `split` stands for jsPDF's
`splitTextToSize(text, MAX_TEXT_WIDTH)` word-wrapping, an internal of the
PDF library, so the embedding is parameterized by it.  The enclosing
try/catch resolves instead of rejecting, so the op list is total. -/
def addPieceToPDF (canvas : Option Canvas) (item : Item) (index : ℕ)
    (isFirstPage : Bool) (split : String → List String) : List PdfOp :=
  let specs := item.specs
  let titleY : ℚ := if isFirstPage then PDF_MARGIN_TOP + 35 else PDF_MARGIN_TOP
  let yStart : ℚ := if isFirstPage then titleY + 10 else PDF_MARGIN_TOP + 10
  let itemNotes : Option String := jsOrString item.notes specs.notes
  let notesOps : List PdfOp :=
    if notesPresent itemNotes then
      [PdfOp.text "Notes:" PDF_MARGIN_LEFT (yStart + 28),
       PdfOp.textLines (split (itemNotes.getD "")) PDF_MARGIN_LEFT (yStart + 35)]
    else []
  let imgYPosition : ℚ :=
    if notesPresent itemNotes then
      yStart + 35 + min (((split (itemNotes.getD "")).length * 5 : ℕ) : ℚ) 60
    else yStart + 35
  let imageOps : List PdfOp :=
    match canvas with
    | some cv =>
      if cv.toDataURLOk then
        [PdfOp.addImage PDF_MARGIN_LEFT imgYPosition IMAGE_WIDTH IMAGE_HEIGHT]
      else
        [PdfOp.setTextColor 255 0 0,
         PdfOp.text "Error: Could not render preview image" PDF_MARGIN_LEFT
           (imgYPosition + 60),
         PdfOp.setTextColor 0 0 0]
    | none =>
      [PdfOp.setTextColor 255 0 0,
       PdfOp.text "Error: Preview image not available" PDF_MARGIN_LEFT (imgYPosition + 60),
       PdfOp.setTextColor 0 0 0]
  [PdfOp.setFontSize 16,
   PdfOp.text ("Piece " ++ natRepr (index + 1) ++ ": " ++ specs.displayWidth ++ "\" × " ++
     specs.displayHeight ++ "\"") PDF_MARGIN_LEFT titleY,
   PdfOp.setFontSize 12,
   PdfOp.text ("Material: " ++ specs.materialType) PDF_MARGIN_LEFT yStart,
   PdfOp.text ("Thickness: " ++ specs.thickness) PDF_MARGIN_LEFT (yStart + 7),
   PdfOp.text ("Quantity: " ++ quantityText specs.quantity) PDF_MARGIN_LEFT (yStart + 14),
   PdfOp.text (polishedEdgesText specs) PDF_MARGIN_LEFT (yStart + 21)] ++
  notesOps ++ imageOps

/-- Embedding of `addProjectInfoToPDF` (part_006 lines 255–268). -/
def addProjectInfoToPDF (projectName dateStr : String) (totalPieces : ℕ) : List PdfOp :=
  [PdfOp.setFontSize 20,
   PdfOp.text ("Stone Project: " ++ projectName) PDF_MARGIN_LEFT PDF_MARGIN_TOP,
   PdfOp.setFontSize 12,
   PdfOp.text ("Date: " ++ dateStr) PDF_MARGIN_LEFT (PDF_MARGIN_TOP + 10),
   PdfOp.text ("Total Pieces: " ++ natRepr totalPieces) PDF_MARGIN_LEFT
     (PDF_MARGIN_TOP + 17)]

/-- Document operations of loop iteration `i` of `processBatch`:
`if (i > 0) pdf.addPage()` followed by `addPieceToPDF(pdf, canvases[i],
specsArray[i], i, i === 0)`. -/
def pieceSlotOps (canvases : List (Option Canvas)) (items : List Item)
    (split : String → List String) (i : ℕ) : List PdfOp :=
  (if 0 < i then [PdfOp.addPage] else []) ++
    addPieceToPDF (canvases.getD i none) (items.getD i default) i (i == 0) split

/-- Document operations of `processCanvasesInBatches` from `currentIndex` on
(part_006 lines 205–252): batches of `batchSize = 2` until
`totalPieces = min(canvases.length, specsArray.length)` is reached. -/
def processBatchesOps (canvases : List (Option Canvas)) (items : List Item)
    (split : String → List String) (total currentIndex : ℕ) : List PdfOp :=
  if total ≤ currentIndex then []
  else
    let endIndex := min (currentIndex + 2) total
    ((List.range' currentIndex (endIndex - currentIndex)).flatMap
      (pieceSlotOps canvases items split)) ++
      processBatchesOps canvases items split total endIndex
termination_by total - currentIndex
decreasing_by omega

/-- Embedding of `exportMultipleToPDF` (part_006 lines 156–188) as the
document it builds: validation first (a thrown `Error` is an `Except.error`,
constructed before any document operation), then the project header and the
batched piece loop.  `dateStr` stands for
`new Date().toLocaleDateString()`. -/
def exportMultipleToPDF (canvases : List (Option Canvas)) (items : List Item)
    (projectName dateStr : String) (split : String → List String) :
    Except String (List PdfOp) :=
  if canvases.length = 0 then Except.error "No canvases provided for PDF export"
  else if items.length = 0 then Except.error "No specifications provided for PDF export"
  else
    let finalProjectName := if projectName = "" then "Stone Project" else projectName
    Except.ok (addProjectInfoToPDF finalProjectName dateStr items.length ++
      processBatchesOps canvases items split (min canvases.length items.length) 0)

/-- Vertical position of the mockup image in `createSinglePiecePDF` (part_006
lines 80–97): `PDF_MARGINS.top + 45`, shifted by
`Math.min(textLines.length * 5, 60)` when notes are present. -/
def singlePieceImageY (notes : Option String) (split : String → List String) : ℚ :=
  if notesPresent notes then
    PDF_MARGIN_TOP + 45 + min (((split (notes.getD "")).length * 5 : ℕ) : ℚ) 60
  else PDF_MARGIN_TOP + 45

/-- Embedding of `createSinglePiecePDF` (part_006 lines 53–100) as the list
of document operations it performs. -/
def createSinglePiecePDF (specs : StoneSpecs) (notes : Option String)
    (split : String → List String) : List PdfOp :=
  [PdfOp.setFontSize 18,
   PdfOp.text ("Stone Mockup: " ++ specs.displayWidth ++ "\" × " ++ specs.displayHeight ++
     "\"") PDF_MARGIN_LEFT PDF_MARGIN_TOP,
   PdfOp.setFontSize 12,
   PdfOp.text ("Material: " ++ specs.materialType) PDF_MARGIN_LEFT (PDF_MARGIN_TOP + 10),
   PdfOp.text ("Thickness: " ++ specs.thickness) PDF_MARGIN_LEFT (PDF_MARGIN_TOP + 17),
   PdfOp.text ("Quantity: " ++ quantityText specs.quantity) PDF_MARGIN_LEFT
     (PDF_MARGIN_TOP + 24),
   PdfOp.text (polishedEdgesText specs) PDF_MARGIN_LEFT (PDF_MARGIN_TOP + 31)] ++
  (if notesPresent notes then
    [PdfOp.text "Notes:" PDF_MARGIN_LEFT (PDF_MARGIN_TOP + 38),
     PdfOp.textLines (split (notes.getD "")) PDF_MARGIN_LEFT (PDF_MARGIN_TOP + 45)]
   else []) ++
  [PdfOp.addImage PDF_MARGIN_LEFT (singlePieceImageY notes split) IMAGE_WIDTH IMAGE_HEIGHT]

/-- Prefix test on character lists (`String.startsWith` at list level). -/
def hasPrefixChars : List Char → List Char → Bool
  | [], _ => true
  | _ :: _, [] => false
  | p :: ps, c :: cs => p == c && hasPrefixChars ps cs

/-- A piece-title block: a single-string `pdf.text` call whose text starts
with `"Piece "`. -/
def isPieceTitleOp : PdfOp → Bool
  | PdfOp.text s _ _ => hasPrefixChars "Piece ".data s.data
  | _ => false

/-- An explicit page break. -/
def isAddPageOp : PdfOp → Bool
  | PdfOp.addPage => true
  | _ => false

/-- An embedded mockup image. -/
def isAddImageOp : PdfOp → Bool
  | PdfOp.addImage _ _ _ _ => true
  | _ => false

/-- A visible placeholder error message (`"Error: …"` text). -/
def isPlaceholderOp : PdfOp → Bool
  | PdfOp.text s _ _ => hasPrefixChars "Error: ".data s.data
  | _ => false

/-- Whether a piece slot has a usable canvas whose image data converts. -/
def canvasOk : Option Canvas → Bool
  | some cv => cv.toDataURLOk
  | none => false

/-- Scheduling events of the batch loop: a batch of piece indices processed
while holding the thread, or a voluntary suspension (`setTimeout(processBatch,
10)`) that yields control back to the host environment. -/
inductive BatchEv where
  | batch (startIndex size : ℕ)
  | yieldToHost
deriving DecidableEq

/-- Scheduling trace of `processCanvasesInBatches` (part_006 lines 205–252)
from `currentIndex` on: each `processBatch` invocation handles
`min(currentIndex + batchSize, totalPieces) - currentIndex` pieces
(`batchSize = 2`) and then suspends via `setTimeout` before the next
invocation runs. -/
def processBatchTrace (total currentIndex : ℕ) : List BatchEv :=
  if total ≤ currentIndex then []
  else
    let endIndex := min (currentIndex + 2) total
    BatchEv.batch currentIndex (endIndex - currentIndex) :: BatchEv.yieldToHost ::
      processBatchTrace total endIndex
termination_by total - currentIndex
decreasing_by omega

/-- Whether a scheduling event is a batch. -/
def isBatchEv : BatchEv → Bool
  | BatchEv.batch _ _ => true
  | BatchEv.yieldToHost => false

/-- Piece indices covered by the batch events of a trace, in order. -/
def batchIndices : List BatchEv → List ℕ
  | [] => []
  | BatchEv.batch lo sz :: t => List.range' lo sz ++ batchIndices t
  | BatchEv.yieldToHost :: t => batchIndices t

/-! ### Counting lemmas for the export document (C3, C4, C6, C10) -/

theorem hasPrefixChars_nil (l : List Char) : hasPrefixChars [] l = true := rfl

theorem hasPrefixChars_cons_nil (p : Char) (ps : List Char) :
    hasPrefixChars (p :: ps) [] = false := rfl

theorem hasPrefixChars_cons (p : Char) (ps : List Char) (c : Char) (cs : List Char) :
    hasPrefixChars (p :: ps) (c :: cs) = (p == c && hasPrefixChars ps cs) := rfl

/-- Per-piece operation counts of `addPieceToPDF`: always exactly one piece
title and no page break; exactly one embedded image when the piece's canvas
is present and converts, and exactly one visible placeholder message
otherwise. -/
theorem addPieceToPDF_counts (cv : Option Canvas) (item : Item) (i : ℕ) (first : Bool)
    (split : String → List String) :
    (addPieceToPDF cv item i first split).countP isPieceTitleOp = 1 ∧
    (addPieceToPDF cv item i first split).countP isAddPageOp = 0 ∧
    (addPieceToPDF cv item i first split).countP isAddImageOp =
      (if canvasOk cv then 1 else 0) ∧
    (addPieceToPDF cv item i first split).countP isPlaceholderOp =
      (if canvasOk cv then 0 else 1) := by
  rcases cv with _ | ⟨_ | _⟩
  all_goals
    by_cases hn : notesPresent (jsOrString item.notes item.specs.notes)
  all_goals
    cases hpe : item.specs.polishedEdges
  all_goals
    simp [addPieceToPDF, canvasOk, polishedEdgesText, hpe, hn,
      List.countP_cons, List.countP_append, List.countP_nil,
      isPieceTitleOp, isAddPageOp, isAddImageOp, isPlaceholderOp,
      String.data_append, List.append_assoc,
      hasPrefixChars_nil, hasPrefixChars_cons_nil, hasPrefixChars_cons]

/-- The project header contributes no piece title, page break, image or
placeholder. -/
theorem addProjectInfoToPDF_counts (projectName dateStr : String) (n : ℕ) :
    (addProjectInfoToPDF projectName dateStr n).countP isPieceTitleOp = 0 ∧
    (addProjectInfoToPDF projectName dateStr n).countP isAddPageOp = 0 ∧
    (addProjectInfoToPDF projectName dateStr n).countP isAddImageOp = 0 ∧
    (addProjectInfoToPDF projectName dateStr n).countP isPlaceholderOp = 0 := by
  simp [addProjectInfoToPDF, List.countP_cons, List.countP_nil,
    isPieceTitleOp, isAddPageOp, isAddImageOp, isPlaceholderOp,
    String.data_append, hasPrefixChars_nil, hasPrefixChars_cons_nil, hasPrefixChars_cons]

/-- Operation counts of one loop iteration: one title, a page break exactly
when the piece is not the first, and an image or placeholder according to the
slot's canvas. -/
theorem pieceSlotOps_counts (canvases : List (Option Canvas)) (items : List Item)
    (split : String → List String) (i : ℕ) :
    (pieceSlotOps canvases items split i).countP isPieceTitleOp = 1 ∧
    (pieceSlotOps canvases items split i).countP isAddPageOp =
      (if 0 < i then 1 else 0) ∧
    (pieceSlotOps canvases items split i).countP isAddImageOp =
      (if canvasOk (canvases.getD i none) then 1 else 0) ∧
    (pieceSlotOps canvases items split i).countP isPlaceholderOp =
      (if canvasOk (canvases.getD i none) then 0 else 1) := by
  obtain ⟨h1, h2, h3, h4⟩ := addPieceToPDF_counts (canvases.getD i none)
    (items.getD i default) i (i == 0) split
  rw [pieceSlotOps]
  have t1 : List.countP isPieceTitleOp [PdfOp.addPage] = 0 := rfl
  have t2 : List.countP isAddPageOp [PdfOp.addPage] = 1 := rfl
  have t3 : List.countP isAddImageOp [PdfOp.addPage] = 0 := rfl
  have t4 : List.countP isPlaceholderOp [PdfOp.addPage] = 0 := rfl
  by_cases hi : 0 < i
  · rw [if_pos hi]
    exact ⟨by rw [List.countP_append, t1, h1],
      by rw [List.countP_append, t2, h2]; simp [hi],
      by rw [List.countP_append, t3, h3]; simp,
      by rw [List.countP_append, t4, h4]; simp⟩
  · rw [if_neg hi]
    exact ⟨by rw [List.nil_append, h1],
      by rw [List.nil_append, h2]; simp [hi],
      by rw [List.nil_append, h3],
      by rw [List.nil_append, h4]⟩

theorem range'_split (s m n : ℕ) :
    List.range' s (m + n) = List.range' s m ++ List.range' (s + m) n := by
  have h := List.range'_append s m n 1
  rw [one_mul] at h
  rw [Nat.add_comm n m] at h
  exact h.symm

/-- The batched loop visits exactly the piece indices `currentIndex,
currentIndex + 1, …, totalPieces - 1`, in order, batching aside. -/
theorem processBatchesOps_flatten (canvases : List (Option Canvas)) (items : List Item)
    (split : String → List String) (total : ℕ) :
    ∀ (k currentIndex : ℕ), total - currentIndex = k →
      processBatchesOps canvases items split total currentIndex =
        (List.range' currentIndex (total - currentIndex)).flatMap
          (pieceSlotOps canvases items split) := by
  intro k
  induction k using Nat.strong_induction_on with
  | _ k ih =>
    intro cur hk
    rw [processBatchesOps]
    by_cases hc : total ≤ cur
    · rw [if_pos hc, show total - cur = 0 by omega]
      rfl
    · rw [if_neg hc]
      dsimp only
      have hrec := ih (total - min (cur + 2) total) (by omega) (min (cur + 2) total) rfl
      rw [hrec,
        show total - cur = (min (cur + 2) total - cur) + (total - min (cur + 2) total) by
          omega,
        range'_split cur (min (cur + 2) total - cur) (total - min (cur + 2) total),
        show cur + (min (cur + 2) total - cur) = min (cur + 2) total by omega,
        List.flatMap_append]

theorem countP_flatMap_sum {β : Type} (f : β → List PdfOp) (p : PdfOp → Bool) :
    ∀ l : List β, ((l.flatMap f).countP p) = (l.map fun b => (f b).countP p).sum := by
  intro l
  induction l with
  | nil => rfl
  | cons b t ih => simp [List.flatMap_cons, List.countP_append, ih]

theorem sum_map_one {β : Type} (l : List β) : (l.map fun _ => 1).sum = l.length := by
  induction l with
  | nil => rfl
  | cons b t ih => simp [ih, Nat.add_comm]

theorem sum_if_pos_range' : ∀ (k s : ℕ), 0 < s →
    ((List.range' s k).map fun i => if 0 < i then 1 else 0).sum = k := by
  intro k
  induction k with
  | zero => intro s _; rfl
  | succ m ih =>
    intro s hs
    rw [show List.range' s (m + 1) = s :: List.range' (s + 1) m from rfl,
      List.map_cons, List.sum_cons, if_pos hs, ih (s + 1) (by omega)]
    omega

theorem slotTitle_sum (canvases : List (Option Canvas)) (items : List Item)
    (split : String → List String) (l : List ℕ) :
    (l.map fun i => (pieceSlotOps canvases items split i).countP isPieceTitleOp).sum =
      l.length := by
  induction l with
  | nil => rfl
  | cons a t ih =>
    rw [List.map_cons, List.sum_cons, (pieceSlotOps_counts canvases items split a).1, ih,
      List.length_cons]
    omega

theorem slotAddPage_sum_pos (canvases : List (Option Canvas)) (items : List Item)
    (split : String → List String) : ∀ (k s : ℕ), 0 < s →
    ((List.range' s k).map fun i =>
      (pieceSlotOps canvases items split i).countP isAddPageOp).sum = k := by
  intro k
  induction k with
  | zero => intro s _; rfl
  | succ m ih =>
    intro s hs
    rw [show List.range' s (m + 1) = s :: List.range' (s + 1) m from rfl,
      List.map_cons, List.sum_cons, (pieceSlotOps_counts canvases items split s).2.1,
      if_pos hs, ih (s + 1) (by omega)]
    omega

theorem slotAddPage_sum (canvases : List (Option Canvas)) (items : List Item)
    (split : String → List String) (n : ℕ) :
    ((List.range' 0 n).map fun i =>
      (pieceSlotOps canvases items split i).countP isAddPageOp).sum = n - 1 := by
  cases n with
  | zero => rfl
  | succ m =>
    rw [show List.range' 0 (m + 1) = 0 :: List.range' 1 m from rfl,
      List.map_cons, List.sum_cons, (pieceSlotOps_counts canvases items split 0).2.1,
      if_neg (lt_irrefl 0), slotAddPage_sum_pos canvases items split m 1 (by omega)]
    omega

/-- Past validation, `exportMultipleToPDF` builds exactly the project header
followed by the `min(canvases.length, specsArray.length)` piece slots in
order. -/
theorem exportMultipleToPDF_ok_shape (canvases : List (Option Canvas)) (items : List Item)
    (projectName dateStr : String) (split : String → List String)
    (hc : canvases ≠ []) (hi : items ≠ []) :
    exportMultipleToPDF canvases items projectName dateStr split =
      Except.ok (addProjectInfoToPDF
          (if projectName = "" then "Stone Project" else projectName) dateStr items.length ++
        (List.range' 0 (min canvases.length items.length)).flatMap
          (pieceSlotOps canvases items split)) := by
  rw [exportMultipleToPDF,
    if_neg (by simpa [List.length_eq_zero] using hc),
    if_neg (by simpa [List.length_eq_zero] using hi)]
  dsimp only
  rw [processBatchesOps_flatten canvases items split (min canvases.length items.length)
    (min canvases.length items.length - 0) 0 rfl, Nat.sub_zero]

/-- Complete-document counts of a validated export: one title per placed
piece and one page break per piece after the first. -/
theorem export_counts_core (canvases : List (Option Canvas)) (items : List Item)
    (projectName dateStr : String) (split : String → List String)
    (hc : canvases ≠ []) (hi : items ≠ []) :
    ∃ ops, exportMultipleToPDF canvases items projectName dateStr split = Except.ok ops ∧
      ops = addProjectInfoToPDF
          (if projectName = "" then "Stone Project" else projectName) dateStr items.length ++
        (List.range' 0 (min canvases.length items.length)).flatMap
          (pieceSlotOps canvases items split) ∧
      ops.countP isPieceTitleOp = min canvases.length items.length ∧
      ops.countP isAddPageOp = min canvases.length items.length - 1 := by
  refine ⟨_, exportMultipleToPDF_ok_shape canvases items projectName dateStr split hc hi,
    rfl, ?_, ?_⟩
  · rw [List.countP_append, (addProjectInfoToPDF_counts _ dateStr items.length).1,
      countP_flatMap_sum, slotTitle_sum, List.length_range']
    omega
  · rw [List.countP_append, (addProjectInfoToPDF_counts _ dateStr items.length).2.1,
      countP_flatMap_sum, slotAddPage_sum]
    omega

/-- C3: `exportMultipleToPDF` with an empty canvases list or an empty pieces
list fails with the corresponding validation error immediately; the error is
raised before the document is created, so the error branch carries no
document operations at all (the result type makes any side effect
impossible in the error case). -/
theorem exportMultipleToPDF_validation (canvases : List (Option Canvas)) (items : List Item)
    (projectName dateStr : String) (split : String → List String) :
    (canvases = [] →
      exportMultipleToPDF canvases items projectName dateStr split =
        Except.error "No canvases provided for PDF export") ∧
    (canvases ≠ [] → items = [] →
      exportMultipleToPDF canvases items projectName dateStr split =
        Except.error "No specifications provided for PDF export") := by
  constructor
  · intro h
    subst h
    rfl
  · intro hc hi
    subst hi
    rw [exportMultipleToPDF, if_neg (by simpa [List.length_eq_zero] using hc)]
    rfl

/-- Witness for C3: both empty-input validation failures at concrete
arguments. -/
theorem exportMultipleToPDF_validation_witness :
    exportMultipleToPDF [] [⟨default, none⟩] "Patio" "1/1/2025" (fun s => [s]) =
      Except.error "No canvases provided for PDF export" ∧
    exportMultipleToPDF [some ⟨true⟩] [] "Patio" "1/1/2025" (fun s => [s]) =
      Except.error "No specifications provided for PDF export" :=
  ⟨(exportMultipleToPDF_validation [] [⟨default, none⟩] "Patio" "1/1/2025" (fun s => [s])).1
      rfl,
    (exportMultipleToPDF_validation [some ⟨true⟩] [] "Patio" "1/1/2025" (fun s => [s])).2
      (by simp) rfl⟩

/-- C6: with `n` canvases and `n` pieces (`n ≥ 1`), the export succeeds and
the document holds exactly `n` piece-title blocks and exactly `n - 1`
explicit page breaks (`addPage` once per piece after the first; the first
piece shares page 1 with the project header). -/
theorem exportMultipleToPDF_page_structure (canvases : List (Option Canvas))
    (items : List Item) (projectName dateStr : String) (split : String → List String)
    (n : ℕ) (hc : canvases.length = n) (hi : items.length = n) (hn : 0 < n) :
    ∃ ops, exportMultipleToPDF canvases items projectName dateStr split = Except.ok ops ∧
      ops.countP isPieceTitleOp = n ∧ ops.countP isAddPageOp = n - 1 := by
  obtain ⟨ops, h1, _, h3, h4⟩ := export_counts_core canvases items projectName dateStr split
    (by intro h; subst h; simp at hc; omega)
    (by intro h; subst h; simp at hi; omega)
  exact ⟨ops, h1, by rw [h3, hc, hi, min_self], by rw [h4, hc, hi, min_self]⟩

/-- Witness for C6 with five valid canvases and five pieces. -/
theorem exportMultipleToPDF_page_structure_witness :
    ∃ ops, exportMultipleToPDF (List.replicate 5 (some ⟨true⟩)) (List.replicate 5 default)
        "Patio" "1/1/2025" (fun s => [s]) = Except.ok ops ∧
      ops.countP isPieceTitleOp = 5 ∧ ops.countP isAddPageOp = 5 - 1 :=
  exportMultipleToPDF_page_structure (List.replicate 5 (some ⟨true⟩))
    (List.replicate 5 default) "Patio" "1/1/2025" (fun s => [s]) 5
    (List.length_replicate 5 _) (List.length_replicate 5 _) (by omega)

/-- C10 (implicit): a validated batched export places exactly
`min(canvases.length, pieces.length)` pieces — the document is the header
followed by precisely that many piece slots, with one title per placed piece
and one page break per placed piece after the first — so when the pieces
list is longer than the canvases list the surplus pieces are silently
omitted (no page, no slot, hence no placeholder) and the call still
completes successfully. -/
theorem exportMultipleToPDF_min_pieces (canvases : List (Option Canvas)) (items : List Item)
    (projectName dateStr : String) (split : String → List String)
    (hc : canvases ≠ []) (hi : items ≠ []) :
    ∃ ops, exportMultipleToPDF canvases items projectName dateStr split = Except.ok ops ∧
      ops = addProjectInfoToPDF
          (if projectName = "" then "Stone Project" else projectName) dateStr items.length ++
        (List.range' 0 (min canvases.length items.length)).flatMap
          (pieceSlotOps canvases items split) ∧
      ops.countP isPieceTitleOp = min canvases.length items.length ∧
      ops.countP isAddPageOp = min canvases.length items.length - 1 :=
  export_counts_core canvases items projectName dateStr split hc hi

/-- Witness for C10: two canvases and five pieces yield two placed pieces
and one page break. -/
theorem exportMultipleToPDF_min_pieces_witness :
    ∃ ops, exportMultipleToPDF (List.replicate 2 (some ⟨true⟩)) (List.replicate 5 default)
        "Patio" "1/1/2025" (fun s => [s]) = Except.ok ops ∧
      ops = addProjectInfoToPDF "Patio" "1/1/2025" 5 ++
        (List.range' 0 2).flatMap (pieceSlotOps (List.replicate 2 (some ⟨true⟩))
          (List.replicate 5 default) (fun s => [s])) ∧
      ops.countP isPieceTitleOp = 2 ∧ ops.countP isAddPageOp = 1 := by
  have h := exportMultipleToPDF_min_pieces (List.replicate 2 (some ⟨true⟩))
    (List.replicate 5 default) "Patio" "1/1/2025" (fun s => [s]) (by simp) (by simp)
  simpa using h

/-- C4: once validation passes, the export always completes with a document
(`Except.ok`, never an error): the document is the header plus one slot per
placed piece, and each slot shows exactly one piece title together with
either its embedded image (when the slot's canvas exists and converts) or
exactly one visible placeholder error message (when the canvas is missing or
its conversion throws) — so a single bad piece never aborts the batch and
the remaining pieces keep their full content. -/
theorem exportMultipleToPDF_partial_failure (canvases : List (Option Canvas))
    (items : List Item) (projectName dateStr : String) (split : String → List String)
    (hc : canvases ≠ []) (hi : items ≠ []) :
    ∃ ops, exportMultipleToPDF canvases items projectName dateStr split = Except.ok ops ∧
      ops = addProjectInfoToPDF
          (if projectName = "" then "Stone Project" else projectName) dateStr items.length ++
        (List.range' 0 (min canvases.length items.length)).flatMap
          (pieceSlotOps canvases items split) ∧
      ∀ i < min canvases.length items.length,
        (pieceSlotOps canvases items split i).countP isPieceTitleOp = 1 ∧
        (pieceSlotOps canvases items split i).countP isAddImageOp =
          (if canvasOk (canvases.getD i none) then 1 else 0) ∧
        (pieceSlotOps canvases items split i).countP isPlaceholderOp =
          (if canvasOk (canvases.getD i none) then 0 else 1) := by
  obtain ⟨ops, h1, h2, _, _⟩ := export_counts_core canvases items projectName dateStr split
    hc hi
  exact ⟨ops, h1, h2, fun i _ =>
    ⟨(pieceSlotOps_counts canvases items split i).1,
     (pieceSlotOps_counts canvases items split i).2.2.1,
     (pieceSlotOps_counts canvases items split i).2.2.2⟩⟩

/-- Witness for C4: five pieces with piece index 2's canvas missing. -/
theorem exportMultipleToPDF_partial_failure_witness :
    ∃ ops, exportMultipleToPDF [some ⟨true⟩, some ⟨true⟩, none, some ⟨true⟩, some ⟨true⟩]
        (List.replicate 5 default) "Patio" "1/1/2025" (fun s => [s]) = Except.ok ops ∧
      ops = addProjectInfoToPDF "Patio" "1/1/2025" 5 ++
        (List.range' 0 5).flatMap
          (pieceSlotOps [some ⟨true⟩, some ⟨true⟩, none, some ⟨true⟩, some ⟨true⟩]
            (List.replicate 5 default) (fun s => [s])) ∧
      ∀ i < 5,
        (pieceSlotOps [some ⟨true⟩, some ⟨true⟩, none, some ⟨true⟩, some ⟨true⟩]
          (List.replicate 5 default) (fun s => [s]) i).countP isPieceTitleOp = 1 ∧
        (pieceSlotOps [some ⟨true⟩, some ⟨true⟩, none, some ⟨true⟩, some ⟨true⟩]
          (List.replicate 5 default) (fun s => [s]) i).countP isAddImageOp =
          (if canvasOk (([some ⟨true⟩, some ⟨true⟩, none, some ⟨true⟩, some ⟨true⟩] :
            List (Option Canvas)).getD i none) then 1 else 0) ∧
        (pieceSlotOps [some ⟨true⟩, some ⟨true⟩, none, some ⟨true⟩, some ⟨true⟩]
          (List.replicate 5 default) (fun s => [s]) i).countP isPlaceholderOp =
          (if canvasOk (([some ⟨true⟩, some ⟨true⟩, none, some ⟨true⟩, some ⟨true⟩] :
            List (Option Canvas)).getD i none) then 0 else 1) := by
  have h := exportMultipleToPDF_partial_failure
    [some ⟨true⟩, some ⟨true⟩, none, some ⟨true⟩, some ⟨true⟩]
    (List.replicate 5 default) "Patio" "1/1/2025" (fun s => [s]) (by simp) (by simp)
  simpa using h

/-- Invariants of the scheduling trace from any start index: the batches
cover exactly the remaining indices in order, every batch holds one or two
pieces, the number of thread-holding batch steps is `⌈remaining/2⌉`, and a
voluntary yield immediately follows every batch. -/
theorem processBatchTrace_props (total : ℕ) : ∀ (k currentIndex : ℕ),
    total - currentIndex = k →
    batchIndices (processBatchTrace total currentIndex) =
      List.range' currentIndex (total - currentIndex) ∧
    (∀ lo sz, BatchEv.batch lo sz ∈ processBatchTrace total currentIndex →
      0 < sz ∧ sz ≤ 2) ∧
    (processBatchTrace total currentIndex).countP isBatchEv =
      ((total - currentIndex) + 1) / 2 ∧
    List.Chain' (fun a b => isBatchEv a = true → b = BatchEv.yieldToHost)
      (processBatchTrace total currentIndex) := by
  intro k
  induction k using Nat.strong_induction_on with
  | _ k ih =>
    intro cur hk
    rw [processBatchTrace]
    by_cases hc : total ≤ cur
    · rw [if_pos hc]
      refine ⟨by rw [show total - cur = 0 by omega]; rfl, ?_, ?_, List.chain'_nil⟩
      · intro lo sz hmem
        exact absurd hmem (List.not_mem_nil _)
      · rw [show total - cur = 0 by omega]
        rfl
    · rw [if_neg hc]
      dsimp only
      obtain ⟨ih1, ih2, ih3, ih4⟩ := ih (total - min (cur + 2) total) (by omega)
        (min (cur + 2) total) rfl
      refine ⟨?_, ?_, ?_, ?_⟩
      · rw [batchIndices, batchIndices, ih1,
          show total - cur =
            (min (cur + 2) total - cur) + (total - min (cur + 2) total) by omega,
          range'_split cur _ _,
          show cur + (min (cur + 2) total - cur) = min (cur + 2) total by omega]
      · intro lo sz hmem
        rcases List.mem_cons.mp hmem with h | h
        · have hsz : sz = min (cur + 2) total - cur := by
            injection h with h1 h2
          rw [hsz]
          omega
        · rcases List.mem_cons.mp h with h | h
          · exact absurd h (by simp)
          · exact ih2 lo sz h
      · rw [List.countP_cons, List.countP_cons, ih3]
        simp [isBatchEv]
        omega
      · refine List.chain'_cons.mpr ⟨fun _ => rfl, ?_⟩
        refine List.chain'_cons'.mpr ⟨?_, ih4⟩
        intro z _ hcontra
        exact absurd hcontra (by simp [isBatchEv])

/-- C5: the batch loop of `exportMultipleToPDF` (`processCanvasesInBatches`)
processes the pieces in fixed-size batches of 2 (the final batch may hold the
single remaining piece), covering all piece indices in order in `⌈n/2⌉`
thread-holding steps, and after every batch it voluntarily suspends
(`setTimeout`) and yields control to the host environment before the next
batch — it never holds the execution thread across more than one batch,
whatever the piece count. -/
theorem processCanvasesInBatches_schedule (total : ℕ) :
    batchIndices (processBatchTrace total 0) = List.range total ∧
    (∀ lo sz, BatchEv.batch lo sz ∈ processBatchTrace total 0 → 0 < sz ∧ sz ≤ 2) ∧
    (processBatchTrace total 0).countP isBatchEv = (total + 1) / 2 ∧
    List.Chain' (fun a b => isBatchEv a = true → b = BatchEv.yieldToHost)
      (processBatchTrace total 0) := by
  obtain ⟨h1, h2, h3, h4⟩ := processBatchTrace_props total (total - 0) 0 rfl
  rw [Nat.sub_zero] at h1 h3
  refine ⟨?_, h2, h3, h4⟩
  rw [h1]
  exact (List.range_eq_range' total).symm

/-- C8 counterexample: in `createSinglePiecePDF`, notes that word-wrap to six
lines place the mockup image at `y = 95`; with the fixed 120-unit image
height the image's bottom edge reaches 215, beyond the 210-unit height of
the configured A4-landscape page, although the shift is capped — so the cap
does not make "the image never runs off the page" true. -/
theorem singlePiece_notes_offpage_counterexample :
    singlePieceImageY (some "long installation notes")
      (fun _ => ["l1", "l2", "l3", "l4", "l5", "l6"]) = 95 ∧
    PdfOp.addImage PDF_MARGIN_LEFT 95 IMAGE_WIDTH IMAGE_HEIGHT ∈
      createSinglePiecePDF default (some "long installation notes")
        (fun _ => ["l1", "l2", "l3", "l4", "l5", "l6"]) ∧
    (95 : ℚ) + IMAGE_HEIGHT > a4LandscapeHeight := by
  have hy : singlePieceImageY (some "long installation notes")
      (fun _ => ["l1", "l2", "l3", "l4", "l5", "l6"]) = 95 := by
    rw [singlePieceImageY, if_pos (by decide)]
    norm_num [PDF_MARGIN_TOP, min_def]
  refine ⟨hy, ?_, by norm_num [IMAGE_HEIGHT, a4LandscapeHeight]⟩
  rw [← hy]
  exact List.mem_append_right _ (List.mem_singleton.mpr rfl)

/-- C8 (amended): whenever the notes text is truthy and non-blank, the
single-piece PDF's image is placed at `PDF_MARGINS.top + 45` shifted down by
`min(lineCount·5, 60)` — a function of the word-wrapped line count, capped at
a fixed maximum of 60 units, so the image's top never drops below 125 units.
The cap bounds the shift but does not keep the image fully on the 210-unit
A4-landscape page once the notes wrap to six or more lines (see the
counterexample). -/
theorem createSinglePiecePDF_notes_shift (specs : StoneSpecs) (notes : Option String)
    (s : String) (split : String → List String)
    (hn : notes = some s) (hp : notesPresent notes = true) :
    singlePieceImageY notes split =
      PDF_MARGIN_TOP + 45 + min (((split s).length * 5 : ℕ) : ℚ) 60 ∧
    singlePieceImageY notes split ≤ 125 ∧
    PdfOp.addImage PDF_MARGIN_LEFT (singlePieceImageY notes split) IMAGE_WIDTH
        IMAGE_HEIGHT ∈
      createSinglePiecePDF specs notes split := by
  subst hn
  have h1 : singlePieceImageY (some s) split =
      PDF_MARGIN_TOP + 45 + min (((split s).length * 5 : ℕ) : ℚ) 60 := by
    rw [singlePieceImageY, if_pos hp]
    rfl
  refine ⟨h1, ?_, ?_⟩
  · rw [h1]
    have hcap : min (((split s).length * 5 : ℕ) : ℚ) 60 ≤ 60 := min_le_right _ _
    rw [PDF_MARGIN_TOP]
    linarith
  · exact List.mem_append_right _ (List.mem_singleton.mpr rfl)

/-- Witness for the amended C8 at one-line notes. -/
theorem createSinglePiecePDF_notes_shift_witness :
    singlePieceImageY (some "note text") (fun _ => ["note text"]) =
      PDF_MARGIN_TOP + 45 +
        min ((((fun _ : String => ["note text"]) "note text").length * 5 : ℕ) : ℚ) 60 ∧
    singlePieceImageY (some "note text") (fun _ => ["note text"]) ≤ 125 ∧
    PdfOp.addImage PDF_MARGIN_LEFT
        (singlePieceImageY (some "note text") (fun _ => ["note text"])) IMAGE_WIDTH
        IMAGE_HEIGHT ∈
      createSinglePiecePDF default (some "note text") (fun _ => ["note text"]) :=
  createSinglePiecePDF_notes_shift default (some "note text") "note text"
    (fun _ => ["note text"]) rfl (by decide)
